import Mathlib

/-!
issueparser: a shallow embedding of the batching / parsing / fetching logic

The Go sources embedded here are

* `internal/analyzer/analyzer.go`  (`AnalyzeIssues`, `analyzeBatch`, `synthesizeAnalyses`,
  `parseAnalysis`),
* `internal/github/client.go`      (`FetchIssues`, `searchIssues`).

Conventions of the embedding.

* A Go `string` is a sequence of bytes.  It is represented by `GoString = List Char`, one list
  element per byte (the element's code point is the byte value).  `len`, slicing and
  `strings.Index` work on bytes in Go and on list elements here.  Text literals of the source are
  ASCII, so `lit "..."` gives their bytes.
* Go `int` is `Int`; no arithmetic of the embedded code can leave the 64-bit range (the only
  sums are `i + 20`, bounded by a slice length plus 20, and page counters).
* A `nil` slice and an empty slice are both the empty list.
* The remote services (`llm.Client.Complete`, `fetchPage`, `fetchSearchPage`) are oracles: a
  function of the number of calls made so far and of the request.  Every call is recorded in a
  log that is threaded through the code, so that "how many calls were made" is a property of the
  result.
* `encoding/json.Unmarshal` into the anonymous `rawAnalysis` struct is a parameter `unmarshal` of
  `parseAnalysis`; `none` is a decode error.  A reference decoder `jsonUnmarshal` for a subset of
  JSON is provided for closed examples.
-/

namespace IssueParser

/-- A Go string: its bytes, in order. -/
abbrev GoString := List Char

/-- The bytes of an (ASCII) source literal. -/
def lit (s : String) : GoString := s.toList

/-! ## The parts of package `strings` and `fmt` that the code uses -/

namespace strings

/-- First index at which `sub` occurs in `s`, if any. -/
def indexNat (s sub : GoString) : Option Nat :=
  match s with
  | [] => if sub = [] then some 0 else none
  | c :: rest =>
    if sub.isPrefixOf (c :: rest) then some 0
    else (indexNat rest sub).map (fun i => i + 1)

/-- Go `strings.Index(s, sub)`: index of the first instance of `sub` in `s`, or `-1`. -/
def Index (s sub : GoString) : Int :=
  match indexNat s sub with
  | some i => (i : Int)
  | none => -1

/-- Worker of `ReplaceAll`: `skip` counts the bytes of a match that are still to be dropped. -/
def replaceFrom (old new : GoString) : Nat → GoString → GoString
  | _, [] => []
  | skip + 1, _ :: rest => replaceFrom old new skip rest
  | 0, c :: rest =>
    if old.isPrefixOf (c :: rest) then new ++ replaceFrom old new (old.length - 1) rest
    else c :: replaceFrom old new 0 rest

/-- Go `strings.ReplaceAll(s, old, new)` for a non-empty `old`: all non-overlapping instances of
`old`, found left to right, are replaced by `new`. -/
def ReplaceAll (s old new : GoString) : GoString := replaceFrom old new 0 s

/-- Go `strings.Join(elems, sep)`. -/
def Join (elems : List GoString) (sep : GoString) : GoString :=
  match elems with
  | [] => []
  | [e] => e
  | e :: e2 :: more => e ++ sep ++ Join (e2 :: more) sep

/-- The UTF-8 encodings of the runes for which `unicode.IsSpace` holds:
`\t \n \v \f \r`, space, U+0085, U+00A0, U+1680, U+2000..U+200A, U+2028, U+2029, U+202F,
U+205F, U+3000. -/
def spaceEncodings : List GoString :=
  [[Char.ofNat 0x09], [Char.ofNat 0x0A], [Char.ofNat 0x0B], [Char.ofNat 0x0C], [Char.ofNat 0x0D],
   [Char.ofNat 0x20],
   [Char.ofNat 0xC2, Char.ofNat 0x85], [Char.ofNat 0xC2, Char.ofNat 0xA0],
   [Char.ofNat 0xE1, Char.ofNat 0x9A, Char.ofNat 0x80]]
  ++ (List.range 11).map (fun k => [Char.ofNat 0xE2, Char.ofNat 0x80, Char.ofNat (0x80 + k)])
  ++ [[Char.ofNat 0xE2, Char.ofNat 0x80, Char.ofNat 0xA8],
      [Char.ofNat 0xE2, Char.ofNat 0x80, Char.ofNat 0xA9],
      [Char.ofNat 0xE2, Char.ofNat 0x80, Char.ofNat 0xAF],
      [Char.ofNat 0xE2, Char.ofNat 0x81, Char.ofNat 0x9F],
      [Char.ofNat 0xE3, Char.ofNat 0x80, Char.ofNat 0x80]]

/-- Strip one leading white-space rune taken from `encs`, if there is one. -/
def stripOne (encs : List GoString) (s : GoString) : Option GoString :=
  (encs.find? (fun p => p.isPrefixOf s)).map (fun p => s.drop p.length)

/-- Strip leading white-space runes, at most `n` of them. -/
def trimLeftN (encs : List GoString) : Nat → GoString → GoString
  | 0, s => s
  | n + 1, s =>
    match stripOne encs s with
    | some r => trimLeftN encs n r
    | none => s

/-- Go `strings.TrimLeftFunc(s, unicode.IsSpace)`. -/
def TrimLeft (s : GoString) : GoString := trimLeftN spaceEncodings s.length s

/-- Go `strings.TrimRightFunc(s, unicode.IsSpace)`: the same walk from the end. -/
def TrimRight (s : GoString) : GoString :=
  (trimLeftN (spaceEncodings.map List.reverse) s.length s.reverse).reverse

/-- Go `strings.TrimSpace(s)`: leading and trailing white space removed. -/
def TrimSpace (s : GoString) : GoString := TrimRight (TrimLeft s)

end strings

/-- The text `fmt` prints for an `int` under the verb `%d`. -/
def formatInt (n : Int) : GoString := (toString n).toList

/-- Go slice expression `s[i:j]` for `0 ≤ i ≤ j ≤ len(s)`. -/
def slice {α : Type} (s : List α) (i j : Nat) : List α := (s.take j).drop i

/-! ## Data model (`github.Issue`, `analyzer.Analysis`) -/

/-- Go `github.Label`. -/
structure Label where
  Name : GoString
deriving DecidableEq, Repr

/-- Go `github.Issue`; the two `time.Time` fields are held as integer timestamps. -/
structure Issue where
  Number : Int
  Title : GoString
  Body : GoString
  State : GoString
  Labels : List Label
  CreatedAt : Int
  UpdatedAt : Int
  HTMLURL : GoString
  Comments : Int
  Repo : GoString
deriving DecidableEq, Repr

/-- Go `analyzer.Options`. -/
structure Options where
  FocusAreas : List GoString
  Verbose : Bool
deriving DecidableEq, Repr

/-- Go `analyzer.Theme`. -/
structure Theme where
  Name : GoString := []
  Description : GoString := []
  IssueCount : Int := 0
  Severity : GoString := []
  IssueURLs : List GoString := []
  Examples : List GoString := []
deriving DecidableEq, Repr

/-- Go `analyzer.Quote`. -/
structure Quote where
  Text : GoString := []
  Source : GoString := []
  IssueURL : GoString := []
deriving DecidableEq, Repr

/-- Go `analyzer.Analysis`. -/
structure Analysis where
  Themes : List Theme := []
  KeyInsights : List GoString := []
  Quotes : List Quote := []
  ActionItems : List GoString := []
  RawIssueCount : Int := 0
deriving DecidableEq, Repr

/-- One element of `rawAnalysis.Themes` in `parseAnalysis`. -/
structure RawTheme where
  Name : GoString := []
  Description : GoString := []
  IssueNumbers : List Int := []
  IssueCount : Int := 0
  Severity : GoString := []
  Examples : List GoString := []
  ExampleQuotes : List GoString := []
deriving DecidableEq, Repr

/-- One element of `rawAnalysis.NotableQuotes` in `parseAnalysis`. -/
structure RawQuote where
  Text : GoString := []
  IssueNumber : Int := 0
deriving DecidableEq, Repr

/-- The anonymous struct `rawAnalysis` that `parseAnalysis` decodes into. -/
structure RawAnalysis where
  Themes : List RawTheme := []
  KeyInsights : List GoString := []
  NotableQuotes : List RawQuote := []
  ActionItems : List GoString := []
deriving DecidableEq, Repr

/-- A Go `map[int]string`: the value stored under each key, if any. -/
abbrev URLMap := Int → Option GoString

/-- The empty map, `make(map[int]string)`. -/
def URLMap.empty : URLMap := fun _ => none

/-- Map assignment `m[k] = v`. -/
def URLMap.set (m : URLMap) (k : Int) (v : GoString) : URLMap :=
  fun j => if j = k then some v else m j

/-! ## The Completion Service (`llm.Client.Complete`) as an oracle -/

/-- The arguments of one call `a.llm.Complete(ctx, systemPrompt, userPrompt, maxTokens)`. -/
structure CompletionRequest where
  systemPrompt : GoString
  userPrompt : GoString
  maxTokens : Int
deriving DecidableEq, Repr

/-- The Completion Service: given how many calls were made before and the request, the generated
text or an error message. -/
abbrev Completion := Nat → CompletionRequest → Except GoString GoString

/-! ## `analyzeBatch` -/

/-- The body text as `analyzeBatch` renders it (truncation, then newline clean-up). -/
def renderBody (body : GoString) : GoString :=
  let body := if body.length > 500 then body.take 500 ++ lit "..." else body
  let body := strings.ReplaceAll body (lit "\r\n") (lit " ")
  strings.ReplaceAll body (lit "\n") (lit " ")

/-- The record that the `fmt.Fprintf` of `analyzeBatch` writes for one issue. -/
def issueRecord (issue : Issue) : GoString :=
  let labels := issue.Labels.map (fun l => l.Name)
  lit "---\nIssue #" ++ formatInt issue.Number ++ lit " [" ++ issue.State ++ lit "]: "
    ++ issue.Title
    ++ lit "\nLabels: " ++ strings.Join labels (lit ", ")
    ++ lit "\nComments: " ++ formatInt issue.Comments
    ++ lit "\nBody: " ++ renderBody issue.Body
    ++ lit "\nURL: " ++ issue.HTMLURL ++ lit "\n"

/-- The `issueSummaries` builder of `analyzeBatch` after the loop over the batch. -/
def issueSummaries (issues : List Issue) : GoString :=
  issues.foldl (fun acc issue => acc ++ issueRecord issue) []

/-- The system prompt of `analyzeBatch`. -/
def batchSystemPrompt : GoString :=
  lit ("You are an expert software analyst. Analyze GitHub issues to identify recurring themes and pain points.\n\n"
    ++ "IMPORTANT: Respond with ONLY valid JSON, no markdown, no explanations. Keep responses concise.\n\n"
    ++ "Required JSON structure:\n"
    ++ "\x7b\"themes\":[\x7b\"name\":\"string\",\"description\":\"string\",\"issue_numbers\":[1,2],\"severity\":\"high|medium|low\",\"example_quotes\":[\"quote\"]\x7d],\"notable_quotes\":[\x7b\"text\":\"quote\",\"issue_number\":1\x7d]\x7d")

/-- The user prompt of `analyzeBatch`. -/
def batchUserPrompt (issues : List Issue) (opts : Options) : GoString :=
  let focusAreas := strings.Join opts.FocusAreas (lit ", ")
  lit "Analyze these issues for themes about: " ++ focusAreas ++ lit "\n\n"
    ++ issueSummaries issues
    ++ lit "\n\nRespond with JSON only. Identify 3-5 themes with severity ratings."

/-- The request `analyzeBatch` sends for a batch. -/
def batchRequest (issues : List Issue) (opts : Options) : CompletionRequest :=
  { systemPrompt := batchSystemPrompt, userPrompt := batchUserPrompt issues opts, maxTokens := 1000 }

/-- Go `Analyzer.analyzeBatch`: one Completion Service call; its response or its error.  The
second component is the call log, extended by this call. -/
def analyzeBatch (complete : Completion) (calls : List CompletionRequest) (issues : List Issue)
    (opts : Options) : Except GoString GoString × List CompletionRequest :=
  let req := batchRequest issues opts
  match complete calls.length req with
  | .error err => (.error err, calls ++ [req])
  | .ok response => (.ok response, calls ++ [req])

/-! ## `parseAnalysis` -/

/-- The first part of `parseAnalysis`: the text handed to `json.Unmarshal`. -/
def extractJSON (response : GoString) : GoString :=
  let idx := strings.Index response (lit "```json")
  let jsonStr :=
    if idx ≠ -1 then
      let jsonStr := response.drop (idx + 7).toNat
      let endIdx := strings.Index jsonStr (lit "```")
      if endIdx ≠ -1 then jsonStr.take endIdx.toNat else jsonStr
    else
      let idx := strings.Index response (lit "```")
      if idx ≠ -1 then
        let jsonStr := response.drop (idx + 3).toNat
        let endIdx := strings.Index jsonStr (lit "```")
        if endIdx ≠ -1 then jsonStr.take endIdx.toNat else jsonStr
      else response
  strings.TrimSpace jsonStr

/-- The loop `for _, num := range t.IssueNumbers` of `parseAnalysis`, started from `urls`. -/
def mapIssueURLs (issueURLs : URLMap) (issueNumbers : List Int) (urls : List GoString) :
    List GoString :=
  issueNumbers.foldl
    (fun acc num =>
      match issueURLs num with
      | some url => acc ++ [url]
      | none => acc)
    urls

/-- The body of the loop `for _, t := range rawAnalysis.Themes` of `parseAnalysis`: the `Theme`
built from one decoded theme. -/
def convertTheme (issueURLs : URLMap) (t : RawTheme) : Theme :=
  let theme : Theme :=
    { Name := t.Name, Description := t.Description, Severity := t.Severity,
      IssueCount := t.IssueCount }
  let theme : Theme :=
    if theme.IssueCount = 0 ∧ t.IssueNumbers.length > 0 then
      { theme with IssueCount := (t.IssueNumbers.length : Int) }
    else theme
  let theme : Theme := { theme with IssueURLs := mapIssueURLs issueURLs t.IssueNumbers theme.IssueURLs }
  let theme : Theme := { theme with Examples := theme.Examples ++ t.Examples }
  { theme with Examples := theme.Examples ++ t.ExampleQuotes }

/-- The body of the loop `for _, q := range rawAnalysis.NotableQuotes` of `parseAnalysis`. -/
def convertQuote (issueURLs : URLMap) (q : RawQuote) : Quote :=
  let quote : Quote := { Text := q.Text }
  match issueURLs q.IssueNumber with
  | some url => { quote with IssueURL := url, Source := lit "Issue #" ++ formatInt q.IssueNumber }
  | none => quote

/-- The `Analysis` that `parseAnalysis` returns when decoding fails. -/
def rawFallback (response : GoString) (issueCount : Int) : Analysis :=
  { Themes := [{ Name := lit "Raw Analysis", Description := response, IssueCount := issueCount,
                 Severity := lit "medium" }],
    RawIssueCount := issueCount }

/-- Go `Analyzer.parseAnalysis`.  `unmarshal` is `json.Unmarshal` into `rawAnalysis`. -/
def parseAnalysis (unmarshal : GoString → Option RawAnalysis) (response : GoString)
    (issueURLs : URLMap) (issueCount : Int) : Except GoString Analysis :=
  let jsonStr := extractJSON response
  match unmarshal jsonStr with
  | none => .ok (rawFallback response issueCount)
  | some rawAnalysis =>
    let analysis : Analysis :=
      { RawIssueCount := issueCount, KeyInsights := rawAnalysis.KeyInsights,
        ActionItems := rawAnalysis.ActionItems }
    let analysis := rawAnalysis.Themes.foldl
      (fun (analysis : Analysis) t =>
        { analysis with Themes := analysis.Themes ++ [convertTheme issueURLs t] })
      analysis
    let analysis := rawAnalysis.NotableQuotes.foldl
      (fun (analysis : Analysis) q =>
        { analysis with Quotes := analysis.Quotes ++ [convertQuote issueURLs q] })
      analysis
    .ok analysis

/-! ## `synthesizeAnalyses` and `AnalyzeIssues` -/

/-- The lookup `issueURLs` that `synthesizeAnalyses` builds from the issue list. -/
def buildIssueURLs (issues : List Issue) : URLMap :=
  issues.foldl (fun m issue => m.set issue.Number issue.HTMLURL) URLMap.empty

/-- The system prompt of the merge call of `synthesizeAnalyses`. -/
def synthesisSystemPrompt : GoString :=
  lit ("You synthesize multiple issue analyses into a final report. Merge similar themes, rank by importance.\n\n"
    ++ "IMPORTANT: Respond with ONLY valid JSON. No markdown, no explanations. Be concise.\n\n"
    ++ "Required JSON structure:\n"
    ++ "\x7b\"themes\":[\x7b\"name\":\"string\",\"description\":\"string\",\"issue_count\":10,\"severity\":\"high|medium|low\",\"examples\":[\"quote1\",\"quote2\"]\x7d],\"key_insights\":[\"insight1\"],\"action_items\":[\"action1\"]\x7d")

/-- The `analysesText` builder of `synthesizeAnalyses`; `i` is the index of the first element
of `batchAnalyses`. -/
def analysesText (batchAnalyses : List GoString) (i : Nat) (acc : GoString) : GoString :=
  match batchAnalyses with
  | [] => acc
  | analysis :: more =>
    analysesText more (i + 1)
      (acc ++ lit "Batch " ++ formatInt ((i : Int) + 1) ++ lit ":\n" ++ analysis ++ lit "\n")

/-- The request of the merge call of `synthesizeAnalyses`. -/
def synthesisRequest (batchAnalyses : List GoString) (opts : Options) : CompletionRequest :=
  { systemPrompt := synthesisSystemPrompt,
    userPrompt := lit "Synthesize these analyses about " ++ strings.Join opts.FocusAreas (lit ", ")
      ++ lit " into 5-7 final themes:\n\n" ++ analysesText batchAnalyses 0 []
      ++ lit "\n\nRespond with JSON only.",
    maxTokens := 1500 }

/-- Go `Analyzer.synthesizeAnalyses`: the returned `(*Analysis, error)` and the call log. -/
def synthesizeAnalyses (unmarshal : GoString → Option RawAnalysis) (complete : Completion)
    (calls : List CompletionRequest) (batchAnalyses : List GoString) (issues : List Issue)
    (opts : Options) : Except GoString Analysis × List CompletionRequest :=
  let issueURLs := buildIssueURLs issues
  if batchAnalyses.length = 0 then
    (.ok { RawIssueCount := (issues.length : Int) }, calls)
  else if batchAnalyses.length = 1 then
    (parseAnalysis unmarshal (batchAnalyses.headD []) issueURLs (issues.length : Int), calls)
  else
    let req := synthesisRequest batchAnalyses opts
    match complete calls.length req with
    | .error err => (.error (lit "synthesis failed: " ++ err), calls ++ [req])
    | .ok response =>
      (parseAnalysis unmarshal response issueURLs (issues.length : Int), calls ++ [req])

/-- The variables of the batch loop of `AnalyzeIssues`.  `batches` is not a variable of the Go
code: it records, in order, the slices `issues[i:end]` handed to `analyzeBatch`. -/
structure BatchLoop where
  batchAnalyses : List GoString := []
  calls : List CompletionRequest := []
  batches : List (List Issue) := []
deriving DecidableEq, Repr

/-- The loop `for i := 0; i < len(issues); i += batchSize` of `AnalyzeIssues`, entered at index
`i`; the first argument bounds the number of iterations. -/
def batchLoop (complete : Completion) (issues : List Issue) (opts : Options) (batchSize : Nat) :
    Nat → Nat → BatchLoop → BatchLoop
  | 0, _, st => st
  | fuel + 1, i, st =>
    if i < issues.length then
      let end_ := if i + batchSize > issues.length then issues.length else i + batchSize
      let batch := slice issues i end_
      match analyzeBatch complete st.calls batch opts with
      | (.error _, calls) =>
        batchLoop complete issues opts batchSize fuel (i + batchSize)
          { st with calls := calls, batches := st.batches ++ [batch] }
      | (.ok batchAnalysis, calls) =>
        batchLoop complete issues opts batchSize fuel (i + batchSize)
          { batchAnalyses := st.batchAnalyses ++ [batchAnalysis], calls := calls,
            batches := st.batches ++ [batch] }
    else st

/-- What a run of `AnalyzeIssues` produces: the returned `(*Analysis, error)`, and for the
statements about it the batches analysed, the per-batch results handed to synthesis and every
Completion Service call, in order. -/
structure AnalyzeRun where
  result : Except GoString Analysis
  batches : List (List Issue)
  batchAnalyses : List GoString
  calls : List CompletionRequest

/-- Go `Analyzer.AnalyzeIssues`.  The loop index grows by 20 from 0, so `len(issues)` iterations
are enough for it to reach `len(issues)`. -/
def AnalyzeIssues (unmarshal : GoString → Option RawAnalysis) (complete : Completion)
    (issues : List Issue) (opts : Options) : AnalyzeRun :=
  let batchSize := 20
  let st := batchLoop complete issues opts batchSize issues.length 0 {}
  let (result, calls) := synthesizeAnalyses unmarshal complete st.calls st.batchAnalyses issues opts
  { result := result, batches := st.batches, batchAnalyses := st.batchAnalyses, calls := calls }

/-! ## The GitHub client (`internal/github/client.go`) -/

namespace url

/-- Upper-case hexadecimal digit of a value below 16. -/
def hexDigit (n : Nat) : Char := (lit "0123456789ABCDEF").getD n '0'

/-- Go `url.QueryEscape`: letters, digits and `-_.~` are kept, a space becomes `+`, every other
byte becomes `%XX`. -/
def QueryEscape (s : GoString) : GoString :=
  s.flatMap (fun c =>
    if c.isAlphanum || c = '-' || c = '_' || c = '.' || c = '~' then [c]
    else if c = ' ' then ['+']
    else ['%', hexDigit (c.toNat / 16), hexDigit (c.toNat % 16)])

end url

/-- Go `github.FetchOptions`. -/
structure FetchOptions where
  Labels : List GoString
  Keywords : List GoString
  MaxItems : Int
  State : GoString
deriving DecidableEq, Repr

/-- Go `github.Client` as the code sees it: its `baseURL`, and the methods `fetchPage` and
`fetchSearchPage` (an HTTP round trip and a JSON decode) as oracles.  An oracle is given the
number of calls made before in this fetch and the endpoint, and answers with the decoded items
(for a search page, `result.Items`) or with an error. -/
structure Client where
  baseURL : GoString
  fetchPage : Nat → GoString → Except GoString (List Issue)
  fetchSearchPage : Nat → GoString → Except GoString (List Issue)

/-- What `FetchIssues` returns: a list and a nil error, a nil list and an error, or a run-time
panic (slicing with a negative bound). -/
inductive FetchResult where
  | ok (issues : List Issue)
  | error (err : GoString)
  | panic
deriving DecidableEq, Repr

/-- The variables of the fetch loops.  `calls` and `fetched` are not variables of the Go code:
they record the endpoints requested and the items received (with `Repo` set), in order. -/
structure FetchState where
  allIssues : List Issue := []
  calls : List GoString := []
  fetched : List Issue := []
deriving DecidableEq, Repr

/-- How a fetch loop ended: it ran to its end (or hit a `break`), or the function returned an
error from inside it. -/
inductive LoopExit where
  | done
  | failed (err : GoString)
deriving DecidableEq, Repr

/-- A run of `FetchIssues`: the returned value, the endpoints requested and the items
received. -/
structure FetchRun where
  result : FetchResult
  calls : List GoString
  fetched : List Issue
deriving DecidableEq, Repr

/-- The assignment `issues[i].Repo = fmt.Sprintf("%s/%s", owner, repo)`. -/
def setRepo (owner repo : GoString) (issue : Issue) : Issue :=
  { issue with Repo := owner ++ lit "/" ++ repo }

/-- The final `if len(allIssues) > opts.MaxItems { allIssues = allIssues[:opts.MaxItems] }`. -/
def cutToMax (allIssues : List Issue) (maxItems : Int) : FetchResult :=
  if (allIssues.length : Int) > maxItems then
    if maxItems < 0 then .panic else .ok (allIssues.take maxItems.toNat)
  else .ok allIssues

/-- The endpoint of one request of the paged listing. -/
def pageEndpoint (c : Client) (owner repo : GoString) (opts : FetchOptions) (page perPage : Int) :
    GoString :=
  let endpoint := c.baseURL ++ lit "/repos/" ++ owner ++ lit "/" ++ repo ++ lit "/issues?page="
    ++ formatInt page ++ lit "&per_page=" ++ formatInt perPage ++ lit "&state=" ++ opts.State
  if opts.Labels.length > 0 ∧ opts.Labels.headD [] ≠ [] then
    endpoint ++ lit "&labels=" ++ url.QueryEscape (strings.Join opts.Labels (lit ","))
  else endpoint

/-- The loop `for len(allIssues) < opts.MaxItems` of `FetchIssues`, entered with page number
`page`; the first argument bounds the number of iterations, and `none` says the bound was
reached with the loop still running. -/
def pagedLoop (c : Client) (owner repo : GoString) (opts : FetchOptions) (perPage : Int) :
    Nat → Int → FetchState → Option (LoopExit × FetchState)
  | 0, _, st => if (st.allIssues.length : Int) < opts.MaxItems then none else some (.done, st)
  | fuel + 1, page, st =>
    if (st.allIssues.length : Int) < opts.MaxItems then
      let endpoint := pageEndpoint c owner repo opts page perPage
      match c.fetchPage st.calls.length endpoint with
      | .error err => some (.failed err, { st with calls := st.calls ++ [endpoint] })
      | .ok issues =>
        if issues.length = 0 then some (.done, { st with calls := st.calls ++ [endpoint] })
        else
          let issues := issues.map (setRepo owner repo)
          let st : FetchState :=
            { allIssues := st.allIssues ++ issues, calls := st.calls ++ [endpoint],
              fetched := st.fetched ++ issues }
          if (issues.length : Int) < perPage then some (.done, st)
          else pagedLoop c owner repo opts perPage fuel (page + 1) st
    else some (.done, st)

/-- The de-duplication loop of `searchIssues`: each item is appended to `allIssues` unless an
issue with the same number and repo is already there. -/
def dedupAppend (allIssues items : List Issue) : List Issue :=
  items.foldl
    (fun allIssues issue =>
      if allIssues.any (fun existing => existing.Number = issue.Number ∧ existing.Repo = issue.Repo)
      then allIssues
      else allIssues ++ [issue])
    allIssues

/-- The endpoint of one request of the keyword search. -/
def searchEndpoint (c : Client) (query : GoString) (page : Int) : GoString :=
  c.baseURL ++ lit "/search/issues?q=" ++ url.QueryEscape query ++ lit "&page=" ++ formatInt page
    ++ lit "&per_page=100"

/-- The inner loop `for len(allIssues) < opts.MaxItems` of `searchIssues` for one query, entered
with page number `page`; the first argument bounds the number of iterations. -/
def searchPages (c : Client) (owner repo : GoString) (opts : FetchOptions) (query : GoString) :
    Nat → Int → FetchState → Option FetchState
  | 0, _, st => if (st.allIssues.length : Int) < opts.MaxItems then none else some st
  | fuel + 1, page, st =>
    if (st.allIssues.length : Int) < opts.MaxItems then
      let endpoint := searchEndpoint c query page
      match c.fetchSearchPage st.calls.length endpoint with
      | .error _ => some { st with calls := st.calls ++ [endpoint] }
      | .ok items =>
        if items.length = 0 then some { st with calls := st.calls ++ [endpoint] }
        else
          let items := items.map (setRepo owner repo)
          let st : FetchState :=
            { allIssues := dedupAppend st.allIssues items, calls := st.calls ++ [endpoint],
              fetched := st.fetched ++ items }
          if items.length < 100 then some st
          else searchPages c owner repo opts query fuel (page + 1) st
    else some st

/-- The query text of `searchIssues` for one (trimmed, non-empty) keyword. -/
def searchQuery (owner repo : GoString) (opts : FetchOptions) (keyword : GoString) : GoString :=
  let query := keyword ++ lit " repo:" ++ owner ++ lit "/" ++ repo ++ lit " is:issue"
  if opts.State ≠ [] ∧ opts.State ≠ lit "all" then query ++ lit " state:" ++ opts.State
  else query

/-- The outer loop `for _, keyword := range opts.Keywords` of `searchIssues`. -/
def searchKeywords (c : Client) (owner repo : GoString) (opts : FetchOptions) (fuel : Nat) :
    List GoString → FetchState → Option FetchState
  | [], st => some st
  | keyword :: more, st =>
    let keyword := strings.TrimSpace keyword
    if keyword = [] then searchKeywords c owner repo opts fuel more st
    else
      match searchPages c owner repo opts (searchQuery owner repo opts keyword) fuel 1 st with
      | none => none
      | some st => searchKeywords c owner repo opts fuel more st

/-- Go `Client.searchIssues`; `fuel` bounds the number of pages requested per keyword. -/
def searchIssues (c : Client) (fuel : Nat) (owner repo : GoString) (opts : FetchOptions) :
    Option FetchRun :=
  match searchKeywords c owner repo opts fuel opts.Keywords {} with
  | none => none
  | some st =>
    some { result := cutToMax st.allIssues opts.MaxItems, calls := st.calls, fetched := st.fetched }

/-- Go `Client.FetchIssues`; `fuel` bounds the number of pages requested (per keyword on the
search path). -/
def FetchIssues (c : Client) (fuel : Nat) (owner repo : GoString) (opts : FetchOptions) :
    Option FetchRun :=
  if opts.Keywords.length > 0 then searchIssues c fuel owner repo opts
  else
    let page : Int := 1
    let perPage : Int := if opts.MaxItems < 100 then opts.MaxItems else 100
    match pagedLoop c owner repo opts perPage fuel page {} with
    | none => none
    | some (.failed err, st) =>
      some { result := .error err, calls := st.calls, fetched := st.fetched }
    | some (.done, st) =>
      some { result := cutToMax st.allIssues opts.MaxItems, calls := st.calls,
             fetched := st.fetched }

/-! ## A reference decoder for `json.Unmarshal` into `rawAnalysis`

`parseAnalysis` and every general statement below take the decoder as a parameter.  For closed
examples a concrete decoder is needed; `jsonUnmarshal` follows `encoding/json` on the subset of
JSON made of ASCII text without `\u` escapes whose objects have no key repeated (up to letter
case).  On a text outside that subset it answers `none`, which then says nothing about Go; no
statement below evaluates it there. -/

/-- A parsed JSON value; a number keeps its literal. -/
inductive JSON where
  | null
  | bool (b : Bool)
  | num (literal : GoString)
  | str (s : GoString)
  | arr (elems : List JSON)
  | obj (members : List (GoString × JSON))

namespace json

/-- JSON insignificant white space: space, tab, carriage return, line feed. -/
def isSpace (c : Char) : Bool := c = ' ' || c = '\t' || c = '\r' || c = '\n'

/-- Skip leading JSON white space. -/
def skipSpace : GoString → GoString
  | [] => []
  | c :: rest => if isSpace c then skipSpace rest else c :: rest

/-- The byte an escape `\e` stands for (the `\u` form is outside the subset). -/
def unescape (e : Char) : Option Char :=
  if e = '\x22' then some '\x22'
  else if e = '\x5c' then some '\x5c'
  else if e = '/' then some '/'
  else if e = 'b' then some (Char.ofNat 8)
  else if e = 'f' then some (Char.ofNat 12)
  else if e = 'n' then some '\n'
  else if e = 'r' then some '\r'
  else if e = 't' then some '\t'
  else none

/-- Scan a string after its opening quote: the decoded bytes and the text after the closing
quote. -/
def scanString : GoString → GoString → Option (GoString × GoString)
  | [], _ => none
  | [c], acc => if c = '\x22' then some (acc, []) else none
  | c :: e :: rest, acc =>
    if c = '\x22' then some (acc, e :: rest)
    else if c = '\x5c' then
      match unescape e with
      | some b => scanString rest (acc ++ [b])
      | none => none
    else if c.toNat < 0x20 || c.toNat ≥ 0x80 then none
    else scanString (e :: rest) (acc ++ [c])

/-- Leading decimal digits of a text, and the text after them. -/
def digits (s : GoString) : GoString × GoString := (s.takeWhile Char.isDigit, s.dropWhile Char.isDigit)

/-- Scan a number literal `-? (0 | [1-9][0-9]*) (. [0-9]+)? ([eE] [+-]? [0-9]+)?`. -/
def scanNumber (s : GoString) : Option (GoString × GoString) :=
  let (sign, s) := match s with
    | '-' :: r => (['-'], r)
    | _ => ([], s)
  let intPart : Option (GoString × GoString) := match s with
    | [] => none
    | c :: r =>
      if c = '0' then some (['0'], r)
      else if c.isDigit then some (c :: (digits r).1, (digits r).2)
      else none
  match intPart with
  | none => none
  | some (ip, s) =>
    let frac : Option (GoString × GoString) := match s with
      | '.' :: r => if (digits r).1 = [] then none else some ('.' :: (digits r).1, (digits r).2)
      | _ => some ([], s)
    match frac with
    | none => none
    | some (fp, s) =>
      let exp : Option (GoString × GoString) := match s with
        | c :: r =>
          if c = 'e' || c = 'E' then
            let (sg, r) := match r with
              | '+' :: r2 => (['+'], r2)
              | '-' :: r2 => (['-'], r2)
              | _ => ([], r)
            if (digits r).1 = [] then none else some (c :: sg ++ (digits r).1, (digits r).2)
          else some ([], s)
        | [] => some ([], s)
      match exp with
      | none => none
      | some (ep, s) => some (sign ++ ip ++ fp ++ ep, s)

mutual

/-- Parse one JSON value; the first argument bounds the nesting and the number of elements. -/
def parseValue : Nat → GoString → Option (JSON × GoString)
  | 0, _ => none
  | fuel + 1, s =>
    match skipSpace s with
    | [] => none
    | c :: rest =>
      if c = '\x7b' then
        match skipSpace rest with
        | [] => none
        | d :: r => if d = '\x7d' then some (JSON.obj [], r) else parseMembers fuel (d :: r) []
      else if c = '[' then
        match skipSpace rest with
        | [] => none
        | d :: r => if d = ']' then some (JSON.arr [], r) else parseElems fuel (d :: r) []
      else if c = '\x22' then
        match scanString rest [] with
        | some (v, r) => some (JSON.str v, r)
        | none => none
      else if (lit "true").isPrefixOf (c :: rest) then some (JSON.bool true, rest.drop 3)
      else if (lit "false").isPrefixOf (c :: rest) then some (JSON.bool false, rest.drop 4)
      else if (lit "null").isPrefixOf (c :: rest) then some (JSON.null, rest.drop 3)
      else
        match scanNumber (c :: rest) with
        | some (n, r) => some (JSON.num n, r)
        | none => none

/-- Parse the elements of an array after `[`, up to and including `]`. -/
def parseElems : Nat → GoString → List JSON → Option (JSON × GoString)
  | 0, _, _ => none
  | fuel + 1, s, acc =>
    match parseValue fuel s with
    | none => none
    | some (v, r) =>
      match skipSpace r with
      | [] => none
      | d :: r2 =>
        if d = ',' then parseElems fuel r2 (acc ++ [v])
        else if d = ']' then some (JSON.arr (acc ++ [v]), r2)
        else none

/-- Parse the members of an object after the opening brace, up to and including the closing
brace. -/
def parseMembers : Nat → GoString → List (GoString × JSON) → Option (JSON × GoString)
  | 0, _, _ => none
  | fuel + 1, s, acc =>
    match skipSpace s with
    | [] => none
    | q :: r =>
      if q = '\x22' then
        match scanString r [] with
        | none => none
        | some (key, r1) =>
          match skipSpace r1 with
          | [] => none
          | colon :: r2 =>
            if colon = ':' then
              match parseValue fuel r2 with
              | none => none
              | some (v, r3) =>
                match skipSpace r3 with
                | [] => none
                | d :: r4 =>
                  if d = ',' then parseMembers fuel r4 (acc ++ [(key, v)])
                  else if d = '\x7d' then some (JSON.obj (acc ++ [(key, v)]), r4)
                  else none
            else none
      else none

end

/-- Parse a whole text as one JSON value surrounded by optional white space. -/
def parse (s : GoString) : Option JSON :=
  match parseValue (s.length + 1) s with
  | some (v, rest) => if skipSpace rest = [] then some v else none
  | none => none

/-- The value of the struct field tagged `name` among the members of an object: `some none`
when no key matches, `none` when more than one does.  Keys match without regard to letter
case. -/
def field (members : List (GoString × JSON)) (name : String) : Option (Option JSON) :=
  match members.filter (fun m => m.1.map Char.toLower == lit name) with
  | [] => some none
  | [m] => some (some m.2)
  | _ => none

/-- Decode into a Go `string`: a JSON string, or `null` (which leaves the zero value). -/
def toGoString : JSON → Option GoString
  | JSON.str s => some s
  | JSON.null => some []
  | _ => none

/-- Decode into a Go `int`: an integer literal in the 64-bit range, or `null`. -/
def toGoInt : JSON → Option Int
  | JSON.num l =>
    let (neg, ds) := match l with
      | '-' :: r => (true, r)
      | _ => (false, l)
    if ds.all Char.isDigit && ds ≠ [] then
      let n : Int := (ds.foldl (fun (a : Nat) d => 10 * a + (d.toNat - 48)) 0 : Nat)
      let n := if neg then -n else n
      if -9223372036854775808 ≤ n ∧ n ≤ 9223372036854775807 then some n else none
    else none
  | JSON.null => some 0
  | _ => none

/-- Decode into a Go slice: a JSON array decoded element by element, or `null`. -/
def toSlice {β : Type} (elem : JSON → Option β) : JSON → Option (List β)
  | JSON.arr es => es.mapM elem
  | JSON.null => some []
  | _ => none

/-- Decode an optional member with `dec`; an absent member leaves the zero value `zero`. -/
def member {β : Type} (members : List (GoString × JSON)) (name : String)
    (dec : JSON → Option β) (zero : β) : Option β :=
  match field members name with
  | none => none
  | some none => some zero
  | some (some v) => dec v

/-- Decode one element of `themes`. -/
def toRawTheme : JSON → Option RawTheme
  | JSON.obj ms => do
    let name ← member ms "name" toGoString []
    let description ← member ms "description" toGoString []
    let issueNumbers ← member ms "issue_numbers" (toSlice toGoInt) []
    let issueCount ← member ms "issue_count" toGoInt 0
    let severity ← member ms "severity" toGoString []
    let examples ← member ms "examples" (toSlice toGoString) []
    let exampleQuotes ← member ms "example_quotes" (toSlice toGoString) []
    pure { Name := name, Description := description, IssueNumbers := issueNumbers,
           IssueCount := issueCount, Severity := severity, Examples := examples,
           ExampleQuotes := exampleQuotes }
  | JSON.null => some {}
  | _ => none

/-- Decode one element of `notable_quotes`. -/
def toRawQuote : JSON → Option RawQuote
  | JSON.obj ms => do
    let text ← member ms "text" toGoString []
    let issueNumber ← member ms "issue_number" toGoInt 0
    pure { Text := text, IssueNumber := issueNumber }
  | JSON.null => some {}
  | _ => none

/-- Decode the top-level value into `rawAnalysis`. -/
def toRawAnalysis : JSON → Option RawAnalysis
  | JSON.obj ms => do
    let themes ← member ms "themes" (toSlice toRawTheme) []
    let keyInsights ← member ms "key_insights" (toSlice toGoString) []
    let notableQuotes ← member ms "notable_quotes" (toSlice toRawQuote) []
    let actionItems ← member ms "action_items" (toSlice toGoString) []
    pure { Themes := themes, KeyInsights := keyInsights, NotableQuotes := notableQuotes,
           ActionItems := actionItems }
  | JSON.null => some {}
  | _ => none

end json

/-- Reference model of `json.Unmarshal([]byte(jsonStr), &rawAnalysis)`: `none` is a non-nil
error (a syntax error, or a value of the wrong JSON type for a field). -/
def jsonUnmarshal (jsonStr : GoString) : Option RawAnalysis :=
  match json.parse jsonStr with
  | some v => json.toRawAnalysis v
  | none => none

/-! ## Auxiliary definitions used to state and prove the properties -/

/-- One iteration of the batch loop of `AnalyzeIssues` on the batch `batch`. -/
def batchStep (complete : Completion) (opts : Options) (st : BatchLoop) (batch : List Issue) :
    BatchLoop :=
  match analyzeBatch complete st.calls batch opts with
  | (.error _, calls) => { st with calls := calls, batches := st.batches ++ [batch] }
  | (.ok batchAnalysis, calls) =>
    { batchAnalyses := st.batchAnalyses ++ [batchAnalysis], calls := calls,
      batches := st.batches ++ [batch] }

/-- The slices `issues[i:end]` that the batch loop visits from index `i` on. -/
def loopBatches (issues : List Issue) (batchSize : Nat) : Nat → Nat → List (List Issue)
  | 0, _ => []
  | fuel + 1, i =>
    if i < issues.length then
      slice issues i (if i + batchSize > issues.length then issues.length else i + batchSize)
        :: loopBatches issues batchSize fuel (i + batchSize)
    else []

/-- The responses of the successful calls when the batches `bs` are analysed in order, the
first of them being call number `k` of the Completion Service. -/
def okResponses (complete : Completion) (opts : Options) : Nat → List (List Issue) → List GoString
  | _, [] => []
  | k, batch :: more =>
    match complete k (batchRequest batch opts) with
    | .ok response => response :: okResponses complete opts (k + 1) more
    | .error _ => okResponses complete opts (k + 1) more

/-- An issue for closed examples. -/
def sampleIssue (number : Int) : Issue :=
  { Number := number, Title := lit "Crash on multi-gpu", Body := lit "It crashes.\nEvery time.",
    State := lit "open", Labels := [{ Name := lit "bug" }], CreatedAt := 0, UpdatedAt := 0,
    HTMLURL := lit "https://github.com/o/r/issues/" ++ formatInt number, Comments := 2,
    Repo := lit "o/r" }

/-- The issues numbered `0 .. n-1`, for closed examples. -/
def sampleIssues (n : Nat) : List Issue := (List.range n).map (fun k => sampleIssue (Int.ofNat k))

/-- Options for closed examples. -/
def sampleOptions : Options := { FocusAreas := [lit "multi-gpu", lit "scale"], Verbose := false }

/-- A Completion Service that answers every call with the JSON text of the empty object. -/
def emptyObjectCompletion : Completion := fun _ _ => .ok (lit "\x7b\x7d")

/-- Newline collapsing as the specification words it: in one pass from the left, each CR LF
pair and each LF is replaced by a single space; every other byte is kept. -/
def collapseNewlines : GoString → GoString
  | [] => []
  | [c] => if c = '\n' then [' '] else [c]
  | c :: d :: rest =>
    if c = '\r' ∧ d = '\n' then ' ' :: collapseNewlines rest
    else if c = '\n' then ' ' :: collapseNewlines (d :: rest)
    else c :: collapseNewlines (d :: rest)

/-- The text `sub` occurs in `s` right after `pre` (followed by `post`) and at no earlier
position: this is the first occurrence of `sub` in `s`. -/
def FirstAt (sub s pre post : GoString) : Prop :=
  s = pre ++ sub ++ post ∧ ¬ sub <:+: pre ++ sub.dropLast

/-- Two issues have the same (issue number, repo) pair. -/
def sameKey (a b : Issue) : Prop := a.Number = b.Number ∧ a.Repo = b.Repo

instance (a b : Issue) : Decidable (sameKey a b) := by unfold sameKey; infer_instance

/-- The items that the search calls `calls` (call number `k` first) brought, in order, with
`Repo` set: a failed call brings nothing. -/
def searchItems (c : Client) (owner repo : GoString) : Nat → List GoString → List Issue
  | _, [] => []
  | k, endpoint :: more =>
    (match c.fetchSearchPage k endpoint with
      | .ok items => items.map (setRepo owner repo)
      | .error _ => [])
    ++ searchItems c owner repo (k + 1) more

/-- A client for closed examples.  Listing: one full page of 100 issues, then a failure.
Search: a page holding issue 7, issue 8 and issue 7 again under another title; then a failure;
then a page holding issue 7 and issue 9. -/
def sampleClient : Client where
  baseURL := lit "https://api.github.com"
  fetchPage := fun k _ => if k = 0 then .ok (sampleIssues 100) else .error (lit "boom")
  fetchSearchPage := fun k _ =>
    if k = 0 then .ok [sampleIssue 7, sampleIssue 8, { (sampleIssue 7) with Title := lit "later" }]
    else if k = 1 then .error (lit "rate limited")
    else .ok [sampleIssue 7, sampleIssue 9]

/-- Search options for closed examples: three non-blank keywords. -/
def sampleSearchOptions : FetchOptions :=
  { Labels := [], Keywords := [lit " gpu ", lit "", lit "node", lit "scale"], MaxItems := 150,
    State := lit "all" }

/-- Listing options for closed examples: no keyword, up to 150 issues. -/
def sampleListOptions : FetchOptions :=
  { Labels := [], Keywords := [], MaxItems := 150, State := lit "all" }

/-- The run of `searchIssues` with `sampleClient` and `sampleSearchOptions` on repository
`o/r`. -/
def sampleSearchRun : FetchRun :=
  { result := .ok [sampleIssue 7, sampleIssue 8, sampleIssue 9],
    calls :=
      [lit "https://api.github.com/search/issues?q=gpu+repo%3Ao%2Fr+is%3Aissue&page=1&per_page=100",
       lit "https://api.github.com/search/issues?q=node+repo%3Ao%2Fr+is%3Aissue&page=1&per_page=100",
       lit "https://api.github.com/search/issues?q=scale+repo%3Ao%2Fr+is%3Aissue&page=1&per_page=100"],
    fetched :=
      [sampleIssue 7, sampleIssue 8, { (sampleIssue 7) with Title := lit "later" },
       sampleIssue 7, sampleIssue 9] }

/-- Every listing call of the log `calls` succeeded. -/
def AllPagesOk (c : Client) (calls : List GoString) : Prop :=
  ∀ k endpoint, calls[k]? = some endpoint → ∃ items, c.fetchPage k endpoint = .ok items

/-- A client all of whose calls fail. -/
def failingClient : Client where
  baseURL := lit "https://api.github.com"
  fetchPage := fun _ _ => .error (lit "rate limited or forbidden")
  fetchSearchPage := fun _ _ => .error (lit "rate limited or forbidden")

/-- Search options for closed examples: one keyword. -/
def sampleKeywordOptions : FetchOptions :=
  { Labels := [], Keywords := [lit "gpu"], MaxItems := 100, State := lit "all" }

/-- What the search loops keep true: `allIssues` is the de-duplication of the items fetched,
and those are the items of the calls made. -/
def SearchInv (c : Client) (owner repo : GoString) (st : FetchState) : Prop :=
  st.allIssues = dedupAppend [] st.fetched ∧ st.fetched = searchItems c owner repo 0 st.calls

/-- A Completion Service whose second call (call number 1) fails and whose other calls answer
with the JSON text of the empty object. -/
def secondCallFails : Completion :=
  fun k _ => if k = 1 then .error (lit "LLM API error 500") else .ok (lit "\x7b\x7d")

/-- The items that the listing calls `calls` (call number `k` first) brought, in order, with
`Repo` set: a failed call brings nothing. -/
def pageItems (c : Client) (owner repo : GoString) : Nat → List GoString → List Issue
  | _, [] => []
  | k, endpoint :: more =>
    (match c.fetchPage k endpoint with
      | .ok issues => issues.map (setRepo owner repo)
      | .error _ => [])
    ++ pageItems c owner repo (k + 1) more

/-- What the listing loop keeps true: `allIssues` holds the items fetched, and those are the
items of the calls made. -/
def PagedInv (c : Client) (owner repo : GoString) (st : FetchState) : Prop :=
  st.allIssues = st.fetched ∧ st.fetched = pageItems c owner repo 0 st.calls

/-- The issues that `FetchIssues` has collected when its loops end, in terms of the items
fetched: all of them on the listing path, their de-duplication on the search path. -/
def collected (opts : FetchOptions) (fetched : List Issue) : List Issue :=
  if opts.Keywords = [] then fetched else dedupAppend [] fetched

/-- A client whose listing pages hold three issues each, whatever page size is asked for. -/
def threePerPageClient : Client where
  baseURL := lit "https://api.github.com"
  fetchPage := fun _ _ => .ok (sampleIssues 3)
  fetchSearchPage := fun _ _ => .ok (sampleIssues 3)

/-- Listing options for closed examples: no keyword, up to 2 issues. -/
def sampleTwoOptions : FetchOptions :=
  { Labels := [], Keywords := [], MaxItems := 2, State := lit "all" }

/-- The run of `FetchIssues` with `threePerPageClient` and `sampleTwoOptions` on repository
`o/r`: one page of three issues, cut to two. -/
def sampleTwoRun : FetchRun :=
  { result := .ok [sampleIssue 0, sampleIssue 1],
    calls := [lit "https://api.github.com/repos/o/r/issues?page=1&per_page=2&state=all"],
    fetched := [sampleIssue 0, sampleIssue 1, sampleIssue 2] }

/-- The URL of the last issue of the list that has the number `n`, if there is one. -/
def lastURL (issues : List Issue) (n : Int) : Option GoString :=
  (issues.reverse.find? (fun issue => issue.Number = n)).map (fun issue => issue.HTMLURL)

/-- Issue 5 of repository `a/x`, for closed examples. -/
def issueFiveOfFirstRepo : Issue :=
  { (sampleIssue 5) with HTMLURL := lit "https://github.com/a/x/issues/5", Repo := lit "a/x" }

/-- Issue 5 of repository `b/y`, for closed examples. -/
def issueFiveOfSecondRepo : Issue :=
  { (sampleIssue 5) with HTMLURL := lit "https://github.com/b/y/issues/5", Repo := lit "b/y" }

/-- The text is made of single-byte characters: every byte is below 0x80 (ASCII).  The
characters of such a text are its bytes, one list element each. -/
def isASCII (s : GoString) : Bool := s.all (fun c => c.toNat < 128)

/-- An issue for closed examples whose body has 519 single-byte characters, a CR LF pair and a
LF among the first 19. -/
def longBodyIssue : Issue :=
  { (sampleIssue 1) with Body := lit "line one\r\nline two\n" ++ List.replicate 500 'x' }

/-- The keywords that `searchIssues` searches for, in order: the keywords trimmed, the blank
ones left out. -/
def searchKeywordsOf (opts : FetchOptions) : List GoString :=
  (opts.Keywords.map strings.TrimSpace).filter (fun keyword => decide (keyword ≠ []))

/-- The endpoints of `p` consecutive search pages of a query, starting with page `page`. -/
def searchPagesOf (c : Client) (query : GoString) (page : Int) (p : Nat) : List GoString :=
  (List.range p).map (fun (j : Nat) => searchEndpoint c query (page + (j : Int)))

/-! # Properties -/

/-! ## Batching (`AnalyzeIssues`) -/

theorem batchLoop_eq_foldl (complete : Completion) (issues : List Issue) (opts : Options)
    (batchSize : Nat) (fuel i : Nat) (st : BatchLoop) :
    batchLoop complete issues opts batchSize fuel i st
      = (loopBatches issues batchSize fuel i).foldl (batchStep complete opts) st := by
  induction fuel generalizing i st with
  | zero => rfl
  | succ fuel ih =>
    unfold batchLoop loopBatches
    by_cases h : i < issues.length
    · simp only [h, if_true, List.foldl_cons]
      generalize hb : slice issues i
        (if i + batchSize > issues.length then issues.length else i + batchSize) = batch
      have hstep : batchStep complete opts st batch
          = (match analyzeBatch complete st.calls batch opts with
            | (.error _, calls) => { st with calls := calls, batches := st.batches ++ [batch] }
            | (.ok batchAnalysis, calls) =>
              { batchAnalyses := st.batchAnalyses ++ [batchAnalysis], calls := calls,
                batches := st.batches ++ [batch] }) := rfl
      rw [hstep]
      rcases hab : analyzeBatch complete st.calls batch opts with ⟨r, calls⟩
      cases r with
      | error e => simp only [ih]
      | ok v => simp only [ih]
    · simp only [h, if_false, List.foldl_nil]

theorem batchStep_batches (complete : Completion) (opts : Options) (st : BatchLoop)
    (batch : List Issue) :
    (batchStep complete opts st batch).batches = st.batches ++ [batch] := by
  unfold batchStep
  rcases hab : analyzeBatch complete st.calls batch opts with ⟨r, calls⟩
  cases r <;> rfl

theorem foldl_batchStep_batches (complete : Completion) (opts : Options)
    (bs : List (List Issue)) (st : BatchLoop) :
    (bs.foldl (batchStep complete opts) st).batches = st.batches ++ bs := by
  induction bs generalizing st with
  | nil => simp
  | cons b bs ih => simp [List.foldl_cons, ih, batchStep_batches]

theorem length_slice_min (issues : List Issue) (i : Nat) (h : i < issues.length) :
    (slice issues i (if i + 20 > issues.length then issues.length else i + 20)).length
      = min 20 (issues.length - i) := by
  unfold slice
  split <;> simp [List.length_drop, List.length_take] <;> omega

theorem slice_append_drop (issues : List Issue) (i : Nat) (h : i < issues.length) :
    slice issues i (if i + 20 > issues.length then issues.length else i + 20)
      ++ issues.drop (i + 20) = issues.drop i := by
  unfold slice
  split
  · rename_i hgt
    rw [List.drop_eq_nil_of_le (by omega : issues.length ≤ i + 20)]
    simp
  · rename_i hle
    have h1 : i ≤ (issues.take (i + 20)).length := by
      simp [List.length_take]; omega
    rw [← List.drop_append_of_le_length h1, List.take_append_drop]

theorem loopBatches_spec (issues : List Issue) (fuel i : Nat)
    (hfuel : issues.length ≤ i + fuel * 20) :
    (loopBatches issues 20 fuel i).flatten = issues.drop i
    ∧ (loopBatches issues 20 fuel i).length = (issues.length - i + 19) / 20
    ∧ ∀ b ∈ loopBatches issues 20 fuel i, 0 < b.length ∧ b.length ≤ 20 := by
  induction fuel generalizing i with
  | zero =>
    have h : issues.length ≤ i := by omega
    refine ⟨?_, ?_, ?_⟩
    · simp [loopBatches, List.drop_eq_nil_of_le h]
    · simp [loopBatches]; omega
    · simp [loopBatches]
  | succ fuel ih =>
    unfold loopBatches
    by_cases h : i < issues.length
    · obtain ⟨h1, h2, h3⟩ := ih (i + 20) (by omega)
      simp only [h, if_true]
      refine ⟨?_, ?_, ?_⟩
      · rw [List.flatten_cons, h1]
        exact slice_append_drop issues i h
      · rw [List.length_cons, h2]; omega
      · intro b hb
        rcases List.mem_cons.mp hb with rfl | hb
        · rw [length_slice_min issues i h]; omega
        · exact h3 b hb
    · simp only [h, if_false]
      have h' : issues.length ≤ i := by omega
      refine ⟨?_, ?_, ?_⟩
      · simp [List.drop_eq_nil_of_le h']
      · simp; omega
      · simp

theorem AnalyzeIssues_batches_eq (unmarshal : GoString → Option RawAnalysis)
    (complete : Completion) (issues : List Issue) (opts : Options) :
    (AnalyzeIssues unmarshal complete issues opts).batches
      = loopBatches issues 20 issues.length 0 := by
  unfold AnalyzeIssues
  simp only [batchLoop_eq_foldl, foldl_batchStep_batches]
  rfl

/-- C1: for every issue list of length N (and every behaviour of the Completion Service), the
batches that `AnalyzeIssues` hands to `analyzeBatch` are exactly ceil(N/20) in number, each is
non-empty and holds at most 20 issues, and their concatenation in order is the original list. -/
theorem AnalyzeIssues_batches_partition (unmarshal : GoString → Option RawAnalysis)
    (complete : Completion) (issues : List Issue) (opts : Options) :
    (AnalyzeIssues unmarshal complete issues opts).batches.length = (issues.length + 19) / 20
    ∧ (∀ b ∈ (AnalyzeIssues unmarshal complete issues opts).batches,
        0 < b.length ∧ b.length ≤ 20)
    ∧ (AnalyzeIssues unmarshal complete issues opts).batches.flatten = issues := by
  rw [AnalyzeIssues_batches_eq]
  obtain ⟨h1, h2, h3⟩ := loopBatches_spec issues issues.length 0 (by omega)
  exact ⟨by simpa using h2, h3, by simpa using h1⟩

/-! ## Response parsing (`parseAnalysis`) -/

theorem mapIssueURLs_eq (issueURLs : URLMap) (issueNumbers : List Int) (urls : List GoString) :
    mapIssueURLs issueURLs issueNumbers urls = urls ++ issueNumbers.filterMap issueURLs := by
  unfold mapIssueURLs
  induction issueNumbers generalizing urls with
  | nil => simp
  | cons num rest ih =>
    rw [List.foldl_cons, ih]
    cases h : issueURLs num <;> simp [List.filterMap_cons, h]

theorem foldl_append_themes (f : RawTheme → Theme) (ts : List RawTheme) (a : Analysis) :
    ts.foldl (fun (analysis : Analysis) t => { analysis with Themes := analysis.Themes ++ [f t] }) a
      = { a with Themes := a.Themes ++ ts.map f } := by
  induction ts generalizing a with
  | nil => simp
  | cons t ts ih => rw [List.foldl_cons, ih]; simp

theorem foldl_append_quotes (f : RawQuote → Quote) (qs : List RawQuote) (a : Analysis) :
    qs.foldl (fun (analysis : Analysis) q => { analysis with Quotes := analysis.Quotes ++ [f q] }) a
      = { a with Quotes := a.Quotes ++ qs.map f } := by
  induction qs generalizing a with
  | nil => simp
  | cons q qs ih => rw [List.foldl_cons, ih]; simp

/-- What `parseAnalysis` returns when the decoder accepts the extracted text. -/
theorem parseAnalysis_decoded (unmarshal : GoString → Option RawAnalysis) (response : GoString)
    (issueURLs : URLMap) (issueCount : Int) (rawAnalysis : RawAnalysis)
    (h : unmarshal (extractJSON response) = some rawAnalysis) :
    parseAnalysis unmarshal response issueURLs issueCount
      = .ok { Themes := rawAnalysis.Themes.map (convertTheme issueURLs),
              KeyInsights := rawAnalysis.KeyInsights,
              Quotes := rawAnalysis.NotableQuotes.map (convertQuote issueURLs),
              ActionItems := rawAnalysis.ActionItems,
              RawIssueCount := issueCount } := by
  unfold parseAnalysis
  simp only [h, foldl_append_themes, foldl_append_quotes, List.nil_append]

/-- What `parseAnalysis` returns when the decoder rejects the extracted text. -/
theorem parseAnalysis_rejected (unmarshal : GoString → Option RawAnalysis) (response : GoString)
    (issueURLs : URLMap) (issueCount : Int) (h : unmarshal (extractJSON response) = none) :
    parseAnalysis unmarshal response issueURLs issueCount = .ok (rawFallback response issueCount) := by
  unfold parseAnalysis
  simp only [h]

/-- C2, as stated, fails: the response consisting of a fenced block around the JSON text of the
empty object is not JSON (the decoder rejects the response itself), yet `parseAnalysis` decodes
the text inside the fence and returns an Analysis with no Theme at all, not the single
"Raw Analysis" theme. -/
theorem parseAnalysis_fenced_response_is_decoded :
    jsonUnmarshal (lit "```json\n\x7b\x7d\n```") = none
    ∧ parseAnalysis jsonUnmarshal (lit "```json\n\x7b\x7d\n```") URLMap.empty 3
        = .ok { Themes := [], KeyInsights := [], Quotes := [], ActionItems := [],
                RawIssueCount := 3 }
    ∧ parseAnalysis jsonUnmarshal (lit "```json\n\x7b\x7d\n```") URLMap.empty 3
        ≠ .ok (rawFallback (lit "```json\n\x7b\x7d\n```") 3) := by
  have h : parseAnalysis jsonUnmarshal (lit "```json\n\x7b\x7d\n```") URLMap.empty 3
      = .ok { Themes := [], KeyInsights := [], Quotes := [], ActionItems := [],
              RawIssueCount := 3 } := by rfl
  refine ⟨by decide, h, ?_⟩
  rw [h]
  intro hc
  have hthemes := congrArg (fun r => match r with
    | Except.ok a => a.Themes.length
    | Except.error _ => 0) hc
  revert hthemes
  decide

/-- C2 (amended): for every decoder, every response whose extracted text (fences stripped,
white space trimmed) the decoder rejects, every lookup and every total issue count n,
`parseAnalysis` returns no error and an Analysis with RawIssueCount = n, no key insights, quotes
or action items, and exactly one Theme: name "Raw Analysis", description the response verbatim,
IssueCount n, severity "medium", no URLs and no examples. -/
theorem parseAnalysis_fallback (unmarshal : GoString → Option RawAnalysis) (response : GoString)
    (issueURLs : URLMap) (issueCount : Int) (h : unmarshal (extractJSON response) = none) :
    parseAnalysis unmarshal response issueURLs issueCount
      = .ok { Themes := [{ Name := lit "Raw Analysis", Description := response,
                           IssueCount := issueCount, Severity := lit "medium",
                           IssueURLs := [], Examples := [] }],
              KeyInsights := [], Quotes := [], ActionItems := [],
              RawIssueCount := issueCount } :=
  parseAnalysis_rejected unmarshal response issueURLs issueCount h

/-- Witness for `parseAnalysis_fallback`: a plain-prose response with the reference decoder. -/
theorem parseAnalysis_fallback_witness :
    jsonUnmarshal (extractJSON (lit "The issues are mostly about GPUs.")) = none
    ∧ parseAnalysis jsonUnmarshal (lit "The issues are mostly about GPUs.") URLMap.empty 42
      = .ok { Themes := [{ Name := lit "Raw Analysis",
                           Description := lit "The issues are mostly about GPUs.",
                           IssueCount := 42, Severity := lit "medium",
                           IssueURLs := [], Examples := [] }],
              KeyInsights := [], Quotes := [], ActionItems := [],
              RawIssueCount := 42 } :=
  ⟨by decide, parseAnalysis_fallback jsonUnmarshal _ URLMap.empty 42 (by decide)⟩

theorem convertTheme_issueURLs (issueURLs : URLMap) (t : RawTheme) :
    (convertTheme issueURLs t).IssueURLs = t.IssueNumbers.filterMap issueURLs := by
  unfold convertTheme
  by_cases hc : t.IssueCount = 0 ∧ t.IssueNumbers.length > 0
  · simp [hc, mapIssueURLs_eq]
  · simp only [hc, if_false, mapIssueURLs_eq, List.nil_append]

theorem convertTheme_issueCount (issueURLs : URLMap) (t : RawTheme) :
    (convertTheme issueURLs t).IssueCount
      = if t.IssueCount ≠ 0 then t.IssueCount else (t.IssueNumbers.length : Int) := by
  unfold convertTheme
  by_cases h0 : t.IssueCount = 0
  · by_cases hl : t.IssueNumbers.length > 0
    · simp [h0, hl]
    · have hl0 : t.IssueNumbers.length = 0 := by omega
      simp [h0, hl0]
  · simp [h0]

/-- C3: for every decoded theme with issue-number list ns and every lookup m, the Theme's
IssueURLs is the list obtained by walking ns in order and emitting m[n] for each n that is a key
of m, skipping the others; every URL in it is a value of m. -/
theorem parseAnalysis_theme_issueURLs (unmarshal : GoString → Option RawAnalysis)
    (response : GoString) (issueURLs : URLMap) (issueCount : Int) (rawAnalysis : RawAnalysis)
    (h : unmarshal (extractJSON response) = some rawAnalysis) :
    ∃ analysis, parseAnalysis unmarshal response issueURLs issueCount = .ok analysis
      ∧ analysis.Themes.map (fun theme => theme.IssueURLs)
          = rawAnalysis.Themes.map (fun t => t.IssueNumbers.filterMap issueURLs)
      ∧ ∀ theme ∈ analysis.Themes, ∀ url ∈ theme.IssueURLs,
          ∃ num, issueURLs num = some url := by
  refine ⟨_, parseAnalysis_decoded unmarshal response issueURLs issueCount rawAnalysis h, ?_, ?_⟩
  · simp [List.map_map, Function.comp_def, convertTheme_issueURLs]
  · intro theme hmem url hurl
    simp only [List.mem_map] at hmem
    obtain ⟨t, _, rfl⟩ := hmem
    rw [convertTheme_issueURLs, List.mem_filterMap] at hurl
    obtain ⟨num, _, hnum⟩ := hurl
    exact ⟨num, hnum⟩

/-- Witness for `parseAnalysis_theme_issueURLs`: a theme referencing issues 1, 2, 3 with the
lookup 1 -> "url1", 3 -> "url3" gets exactly the URLs "url1", "url3". -/
theorem parseAnalysis_theme_issueURLs_witness :
    jsonUnmarshal (extractJSON
        (lit "\x7b\"themes\":[\x7b\"name\":\"GPU\",\"issue_numbers\":[1,2,3]\x7d]\x7d"))
      = some { Themes := [{ Name := lit "GPU", IssueNumbers := [1, 2, 3] }] }
    ∧ (∃ analysis,
        parseAnalysis jsonUnmarshal
            (lit "\x7b\"themes\":[\x7b\"name\":\"GPU\",\"issue_numbers\":[1,2,3]\x7d]\x7d")
            ((URLMap.empty.set 1 (lit "url1")).set 3 (lit "url3")) 3 = .ok analysis
        ∧ analysis.Themes.map (fun theme => theme.IssueURLs) = [[lit "url1", lit "url3"]]
        ∧ ∀ theme ∈ analysis.Themes, ∀ url ∈ theme.IssueURLs,
            ∃ num, ((URLMap.empty.set 1 (lit "url1")).set 3 (lit "url3")) num = some url) :=
  ⟨by decide,
   parseAnalysis_theme_issueURLs jsonUnmarshal _ ((URLMap.empty.set 1 (lit "url1")).set 3 (lit "url3"))
     3 { Themes := [{ Name := lit "GPU", IssueNumbers := [1, 2, 3] }] } (by decide)⟩

/-- C4: for every decoded theme, the Theme's IssueCount is the decoded issue_count when that is
nonzero (an absent field decodes to 0), and otherwise the number of entries of issue_numbers; a
response with one theme and a nonzero issue_count yields exactly one Theme with that count. -/
theorem parseAnalysis_theme_issueCount (unmarshal : GoString → Option RawAnalysis)
    (response : GoString) (issueURLs : URLMap) (issueCount : Int) (rawAnalysis : RawAnalysis)
    (h : unmarshal (extractJSON response) = some rawAnalysis) :
    ∃ analysis, parseAnalysis unmarshal response issueURLs issueCount = .ok analysis
      ∧ analysis.Themes.map (fun theme => theme.IssueCount)
          = rawAnalysis.Themes.map
              (fun t => if t.IssueCount ≠ 0 then t.IssueCount else (t.IssueNumbers.length : Int))
      ∧ ∀ t, rawAnalysis.Themes = [t] → t.IssueCount ≠ 0 →
          ∃ theme, analysis.Themes = [theme] ∧ theme.IssueCount = t.IssueCount := by
  refine ⟨_, parseAnalysis_decoded unmarshal response issueURLs issueCount rawAnalysis h, ?_, ?_⟩
  · simp only [List.map_map, Function.comp_def, convertTheme_issueCount]
  · intro t ht hne
    refine ⟨convertTheme issueURLs t, by simp [ht], ?_⟩
    rw [convertTheme_issueCount, if_pos hne]

/-- Witness for `parseAnalysis_theme_issueCount`: one theme with the explicit issue_count 7 (and
three issue numbers) is parsed into one Theme with IssueCount 7. -/
theorem parseAnalysis_theme_issueCount_witness :
    jsonUnmarshal (extractJSON
        (lit "\x7b\"themes\":[\x7b\"name\":\"GPU\",\"issue_count\":7,\"issue_numbers\":[1,2,3]\x7d]\x7d"))
      = some { Themes := [{ Name := lit "GPU", IssueCount := 7, IssueNumbers := [1, 2, 3] }] }
    ∧ (∃ analysis,
        parseAnalysis jsonUnmarshal
            (lit "\x7b\"themes\":[\x7b\"name\":\"GPU\",\"issue_count\":7,\"issue_numbers\":[1,2,3]\x7d]\x7d")
            URLMap.empty 3 = .ok analysis
        ∧ analysis.Themes.map (fun theme => theme.IssueCount) = [7]
        ∧ ∀ t, [({ Name := lit "GPU", IssueCount := 7, IssueNumbers := [1, 2, 3] } : RawTheme)] = [t]
            → t.IssueCount ≠ 0 → ∃ theme, analysis.Themes = [theme] ∧ theme.IssueCount = t.IssueCount) :=
  ⟨by decide,
   parseAnalysis_theme_issueCount jsonUnmarshal _ URLMap.empty 3
     { Themes := [{ Name := lit "GPU", IssueCount := 7, IssueNumbers := [1, 2, 3] }] } (by decide)⟩

/-! ## Synthesis (`synthesizeAnalyses`) and the calls of a whole run -/

/-- C5: with no per-batch result, `synthesizeAnalyses` returns no error and an Analysis whose
RawIssueCount is the number of issues and whose Themes, KeyInsights, Quotes and ActionItems are
empty, and the call log is returned unchanged: no Completion Service call is made.  With 42
issues RawIssueCount is 42. -/
theorem synthesizeAnalyses_no_results (unmarshal : GoString → Option RawAnalysis)
    (complete : Completion) (calls : List CompletionRequest) (issues : List Issue)
    (opts : Options) :
    synthesizeAnalyses unmarshal complete calls [] issues opts
      = (.ok { Themes := [], KeyInsights := [], Quotes := [], ActionItems := [],
               RawIssueCount := (issues.length : Int) }, calls)
    ∧ ∀ issue : Issue,
        synthesizeAnalyses unmarshal complete calls [] (List.replicate 42 issue) opts
          = (.ok { Themes := [], KeyInsights := [], Quotes := [], ActionItems := [],
                   RawIssueCount := 42 }, calls) := by
  refine ⟨by simp [synthesizeAnalyses], ?_⟩
  intro issue
  simp [synthesizeAnalyses]

theorem synthesizeAnalyses_single (unmarshal : GoString → Option RawAnalysis)
    (complete : Completion) (calls : List CompletionRequest) (r : GoString)
    (issues : List Issue) (opts : Options) :
    synthesizeAnalyses unmarshal complete calls [r] issues opts
      = (parseAnalysis unmarshal r (buildIssueURLs issues) (issues.length : Int), calls) := by
  simp [synthesizeAnalyses]

theorem synthesizeAnalyses_many (unmarshal : GoString → Option RawAnalysis)
    (complete : Completion) (calls : List CompletionRequest) (batchAnalyses : List GoString)
    (issues : List Issue) (opts : Options) (h : 2 ≤ batchAnalyses.length) :
    synthesizeAnalyses unmarshal complete calls batchAnalyses issues opts
      = ((match complete calls.length (synthesisRequest batchAnalyses opts) with
          | .ok response =>
            parseAnalysis unmarshal response (buildIssueURLs issues) (issues.length : Int)
          | .error err => .error (lit "synthesis failed: " ++ err)),
         calls ++ [synthesisRequest batchAnalyses opts]) := by
  unfold synthesizeAnalyses
  have h0 : batchAnalyses.length ≠ 0 := by omega
  have h1 : batchAnalyses.length ≠ 1 := by omega
  simp only [h0, h1, if_false]
  cases complete calls.length (synthesisRequest batchAnalyses opts) <;> rfl

theorem batchStep_calls (complete : Completion) (opts : Options) (st : BatchLoop)
    (batch : List Issue) :
    (batchStep complete opts st batch).calls = st.calls ++ [batchRequest batch opts] := by
  unfold batchStep analyzeBatch
  cases h : complete st.calls.length (batchRequest batch opts) <;> simp only [h]

theorem batchStep_batchAnalyses (complete : Completion) (opts : Options) (st : BatchLoop)
    (batch : List Issue) :
    (batchStep complete opts st batch).batchAnalyses
      = st.batchAnalyses ++ okResponses complete opts st.calls.length [batch] := by
  unfold batchStep analyzeBatch
  cases h : complete st.calls.length (batchRequest batch opts) <;> simp [h, okResponses]

theorem okResponses_append (complete : Completion) (opts : Options) (k : Nat)
    (bs cs : List (List Issue)) :
    okResponses complete opts k (bs ++ cs)
      = okResponses complete opts k bs ++ okResponses complete opts (k + bs.length) cs := by
  induction bs generalizing k with
  | nil => simp [okResponses]
  | cons b bs ih =>
    simp only [List.cons_append, okResponses, List.length_cons]
    have hk : k + (bs.length + 1) = k + 1 + bs.length := by omega
    cases complete k (batchRequest b opts) <;> simp [ih, hk]

theorem foldl_batchStep_calls (complete : Completion) (opts : Options)
    (bs : List (List Issue)) (st : BatchLoop) :
    (bs.foldl (batchStep complete opts) st).calls
      = st.calls ++ bs.map (fun b => batchRequest b opts) := by
  induction bs generalizing st with
  | nil => simp
  | cons b bs ih => simp [List.foldl_cons, ih, batchStep_calls]

theorem foldl_batchStep_batchAnalyses (complete : Completion) (opts : Options)
    (bs : List (List Issue)) (st : BatchLoop) :
    (bs.foldl (batchStep complete opts) st).batchAnalyses
      = st.batchAnalyses ++ okResponses complete opts st.calls.length bs := by
  induction bs generalizing st with
  | nil => simp [okResponses]
  | cons b bs ih =>
    rw [List.foldl_cons, ih, batchStep_batchAnalyses, batchStep_calls]
    have := okResponses_append complete opts st.calls.length [b] bs
    simp only [List.singleton_append, List.length_singleton] at this
    simp [this, List.append_assoc]

theorem okResponses_length_of_ok (complete : Completion) (opts : Options) (k : Nat)
    (bs : List (List Issue))
    (hok : ∀ j, k ≤ j → j < k + bs.length → ∀ req, ∃ response, complete j req = .ok response) :
    (okResponses complete opts k bs).length = bs.length := by
  induction bs generalizing k with
  | nil => simp [okResponses]
  | cons b bs ih =>
    obtain ⟨response, hr⟩ := hok k (le_refl k) (by simp) (batchRequest b opts)
    simp only [okResponses, hr, List.length_cons]
    rw [ih (k + 1)]
    intro j hj1 hj2 req
    exact hok j (by omega) (by simp only [List.length_cons]; omega) req

/-- The result, the per-batch results and the calls of a run of `AnalyzeIssues`, in terms of
the batches. -/
theorem AnalyzeIssues_run (unmarshal : GoString → Option RawAnalysis) (complete : Completion)
    (issues : List Issue) (opts : Options) :
    (AnalyzeIssues unmarshal complete issues opts).batchAnalyses
        = okResponses complete opts 0 (loopBatches issues 20 issues.length 0)
    ∧ ((AnalyzeIssues unmarshal complete issues opts).result,
       (AnalyzeIssues unmarshal complete issues opts).calls)
        = synthesizeAnalyses unmarshal complete
            ((loopBatches issues 20 issues.length 0).map (fun b => batchRequest b opts))
            (okResponses complete opts 0 (loopBatches issues 20 issues.length 0)) issues opts := by
  unfold AnalyzeIssues
  simp only [batchLoop_eq_foldl, foldl_batchStep_calls, foldl_batchStep_batchAnalyses]
  exact ⟨rfl, rfl⟩

theorem loopBatches_45 (issues : List Issue) (h : issues.length = 45) :
    loopBatches issues 20 issues.length 0
      = [slice issues 0 20, slice issues 20 40, slice issues 40 45] := by
  rw [h]
  simp [loopBatches, h]

/-- C6: with exactly one per-batch result r, `synthesizeAnalyses` makes no completion call (the
call log is unchanged) and returns parseAnalysis(r, lookup, number of issues); with two or more
it makes exactly one call (the log grows by the merge request) and returns parseAnalysis of the
response, or an error when the call fails.  Hence for 45 issues whose first three (batch) calls
succeed, `AnalyzeIssues` analyses batches of sizes 20, 20, 5 and makes exactly four calls: the
three batch requests followed by one merge request. -/
theorem synthesizeAnalyses_calls (unmarshal : GoString → Option RawAnalysis)
    (complete : Completion) (opts : Options) :
    (∀ (calls : List CompletionRequest) (r : GoString) (issues : List Issue),
      synthesizeAnalyses unmarshal complete calls [r] issues opts
        = (parseAnalysis unmarshal r (buildIssueURLs issues) (issues.length : Int), calls))
    ∧ (∀ (calls : List CompletionRequest) (r1 r2 : GoString) (more : List GoString)
        (issues : List Issue),
      synthesizeAnalyses unmarshal complete calls (r1 :: r2 :: more) issues opts
        = ((match complete calls.length (synthesisRequest (r1 :: r2 :: more) opts) with
            | .ok response =>
              parseAnalysis unmarshal response (buildIssueURLs issues) (issues.length : Int)
            | .error err => .error (lit "synthesis failed: " ++ err)),
           calls ++ [synthesisRequest (r1 :: r2 :: more) opts]))
    ∧ (∀ issues : List Issue, issues.length = 45 →
        (∀ k, k < 3 → ∀ req, ∃ response, complete k req = .ok response) →
        (AnalyzeIssues unmarshal complete issues opts).batches.map List.length = [20, 20, 5]
        ∧ (AnalyzeIssues unmarshal complete issues opts).batchAnalyses.length = 3
        ∧ (AnalyzeIssues unmarshal complete issues opts).calls
            = (AnalyzeIssues unmarshal complete issues opts).batches.map
                (fun b => batchRequest b opts)
              ++ [synthesisRequest (AnalyzeIssues unmarshal complete issues opts).batchAnalyses opts]
        ∧ (AnalyzeIssues unmarshal complete issues opts).calls.length = 4) := by
  refine ⟨fun calls r issues => synthesizeAnalyses_single unmarshal complete calls r issues opts,
    fun calls r1 r2 more issues =>
      synthesizeAnalyses_many unmarshal complete calls (r1 :: r2 :: more) issues opts
        (by simp), ?_⟩
  intro issues h45 hok
  obtain ⟨hba, hrun⟩ := AnalyzeIssues_run unmarshal complete issues opts
  have hb := AnalyzeIssues_batches_eq unmarshal complete issues opts
  have hlen : (okResponses complete opts 0 (loopBatches issues 20 issues.length 0)).length = 3 := by
    rw [okResponses_length_of_ok]
    · rw [loopBatches_45 issues h45]; rfl
    · intro j _ hj req
      rw [loopBatches_45 issues h45] at hj
      exact hok j (by simpa using hj) req
  rw [synthesizeAnalyses_many _ _ _ _ _ _ (by omega)] at hrun
  have hcalls := congrArg Prod.snd hrun
  simp only at hcalls
  refine ⟨?_, ?_, ?_, ?_⟩
  · rw [hb, loopBatches_45 issues h45]
    simp [slice, List.length_drop, List.length_take, h45]
  · rw [hba, hlen]
  · rw [hcalls, hb, hba]
  · rw [hcalls, loopBatches_45 issues h45]
    rfl

/-- Witness for `synthesizeAnalyses_calls`: 45 issues and a Completion Service that always
answers; the run makes four calls. -/
theorem synthesizeAnalyses_calls_witness :
    (sampleIssues 45).length = 45
    ∧ (AnalyzeIssues jsonUnmarshal emptyObjectCompletion (sampleIssues 45)
        sampleOptions).batches.map List.length = [20, 20, 5]
    ∧ (AnalyzeIssues jsonUnmarshal emptyObjectCompletion (sampleIssues 45)
        sampleOptions).calls.length = 4 :=
  have h := (synthesizeAnalyses_calls jsonUnmarshal emptyObjectCompletion sampleOptions).2.2
    (sampleIssues 45) (by simp [sampleIssues]) (fun _ _ _ => ⟨_, rfl⟩)
  ⟨by simp [sampleIssues], h.1, h.2.2.2⟩

/-! ## Body rendering (`analyzeBatch`) -/

theorem lit_lf : lit "\n" = ['\n'] := rfl

theorem lit_crlf : lit "\r\n" = ['\r', '\n'] := rfl

theorem lit_space : lit " " = [' '] := rfl

theorem lit_dots : lit "..." = ['.', '.', '.'] := rfl

theorem list_two_step {P : GoString → Prop} (h0 : P []) (h1 : ∀ c, P [c])
    (h2 : ∀ c d rest, P rest → P (d :: rest) → P (c :: d :: rest)) : ∀ s, P s := by
  have key : ∀ s, P s ∧ ∀ c, P (c :: s) := by
    intro s
    induction s with
    | nil => exact ⟨h0, h1⟩
    | cons d rest ih => exact ⟨ih.2 d, fun c => h2 c d rest ih.1 (ih.2 d)⟩
  exact fun s => (key s).1

theorem replaceAll_lf (s : GoString) :
    strings.ReplaceAll s (lit "\n") (lit " ") = s.map (fun c => if c = '\n' then ' ' else c) := by
  unfold strings.ReplaceAll
  rw [lit_lf, lit_space]
  induction s with
  | nil => rfl
  | cons c rest ih =>
    by_cases hc : c = '\n'
    · subst hc
      simp [strings.replaceFrom, ih]
    · have hne : ¬ (['\n'].isPrefixOf (c :: rest) = true) := by
        simp [List.isPrefixOf, hc, Ne.symm hc]
      simp only [strings.replaceFrom, hne, if_false, ih, List.map_cons, hc]
      rfl

theorem replaceAll_crlf_single (c : Char) :
    strings.ReplaceAll [c] (lit "\r\n") (lit " ") = [c] := by
  rw [lit_crlf, lit_space]
  simp [strings.ReplaceAll, strings.replaceFrom, List.isPrefixOf]

theorem replaceAll_crlf_cons (c d : Char) (rest : GoString) :
    strings.ReplaceAll (c :: d :: rest) (lit "\r\n") (lit " ")
      = if c = '\r' ∧ d = '\n' then ' ' :: strings.ReplaceAll rest (lit "\r\n") (lit " ")
        else c :: strings.ReplaceAll (d :: rest) (lit "\r\n") (lit " ") := by
  rw [lit_crlf, lit_space]
  by_cases h : c = '\r' ∧ d = '\n'
  · obtain ⟨rfl, rfl⟩ := h
    simp [strings.ReplaceAll, strings.replaceFrom, List.isPrefixOf]
  · have hne : ¬ (['\r', '\n'].isPrefixOf (c :: d :: rest) = true) := by
      simp only [List.isPrefixOf, Bool.and_eq_true, beq_iff_eq, Bool.and_true]
      intro hc
      exact h ⟨hc.1.symm, hc.2.symm⟩
    rw [if_neg h]
    show strings.replaceFrom ['\r', '\n'] [' '] 0 (c :: d :: rest) = _
    rw [strings.replaceFrom, if_neg hne]
    rfl

theorem collapseNewlines_cons_cons (c d : Char) (rest : GoString) :
    collapseNewlines (c :: d :: rest)
      = if c = '\r' ∧ d = '\n' then ' ' :: collapseNewlines rest
        else if c = '\n' then ' ' :: collapseNewlines (d :: rest)
        else c :: collapseNewlines (d :: rest) := by
  rw [collapseNewlines]

/-- The two `ReplaceAll` passes of `analyzeBatch` are the one-pass newline collapsing. -/
theorem replaceAll_twice_eq_collapse (s : GoString) :
    strings.ReplaceAll (strings.ReplaceAll s (lit "\r\n") (lit " ")) (lit "\n") (lit " ")
      = collapseNewlines s := by
  refine list_two_step (P := fun s =>
    strings.ReplaceAll (strings.ReplaceAll s (lit "\r\n") (lit " ")) (lit "\n") (lit " ")
      = collapseNewlines s) rfl ?_ ?_ s
  · intro c
    rw [replaceAll_crlf_single, replaceAll_lf]
    simp only [List.map_cons, List.map_nil, collapseNewlines]
    split <;> rfl
  · intro c d rest ih1 ih2
    rw [replaceAll_lf] at ih1 ih2 ⊢
    rw [replaceAll_crlf_cons, collapseNewlines_cons_cons]
    by_cases h : c = '\r' ∧ d = '\n'
    · simp only [h, and_self, if_true, List.map_cons, ih1]
      simp
    · simp only [h, if_false, List.map_cons, ih2]
      split <;> rfl

theorem collapseNewlines_append_dots (s : GoString) :
    collapseNewlines (s ++ lit "...") = collapseNewlines s ++ lit "..." := by
  rw [lit_dots]
  refine list_two_step (P := fun s =>
    collapseNewlines (s ++ ['.', '.', '.']) = collapseNewlines s ++ ['.', '.', '.']) rfl ?_ ?_ s
  · intro c
    show collapseNewlines (c :: '.' :: ['.', '.']) = collapseNewlines [c] ++ ['.', '.', '.']
    rw [collapseNewlines_cons_cons]
    have h1 : ¬ (c = '\r' ∧ '.' = '\n') := by
      intro h
      exact absurd h.2 (by decide)
    have h2 : collapseNewlines ['.', '.', '.'] = ['.', '.', '.'] := by decide
    simp only [h1, if_false, h2, collapseNewlines]
    split <;> rfl
  · intro c d rest ih1 ih2
    simp only [List.cons_append] at ih1 ih2 ⊢
    rw [collapseNewlines_cons_cons, collapseNewlines_cons_cons, ih1, ih2]
    split
    · rfl
    · split <;> rfl

/-- C7, as stated, fails: a body of 501 single-byte characters that starts with a line feed is
rendered as a space, 499 letters and the ellipsis; that is not the first 500 characters of the
body followed by the ellipsis, because the newline clean-up is applied after the truncation. -/
theorem renderBody_truncated_is_collapsed :
    ('\n' :: List.replicate 500 'a').length = 501
    ∧ renderBody ('\n' :: List.replicate 500 'a')
        = ' ' :: (List.replicate 499 'a' ++ lit "...")
    ∧ renderBody ('\n' :: List.replicate 500 'a')
        ≠ ('\n' :: List.replicate 500 'a').take 500 ++ lit "..." := by
  set_option maxRecDepth 100000 in decide

/-- What `renderBody` does to any body, in bytes: truncation to 500 bytes with the ellipsis
when the body is longer, then the newline collapsing. -/
theorem renderBody_bytes (body : GoString) :
    renderBody body
      = (if body.length > 500 then collapseNewlines (body.take 500) ++ lit "..."
         else collapseNewlines body) := by
  unfold renderBody
  simp only [replaceAll_twice_eq_collapse]
  split
  · exact collapseNewlines_append_dots _
  · rfl

/-- A body of 251 two-byte characters (502 bytes, here the UTF-8 encoding of U+00E9 repeated)
is cut after 500 bytes, that is after 250 characters, and gets the ellipsis. -/
theorem renderBody_two_byte_characters :
    renderBody ((List.replicate 251 [Char.ofNat 0xC3, Char.ofNat 0xA9]).flatten)
      = (List.replicate 250 [Char.ofNat 0xC3, Char.ofNat 0xA9]).flatten ++ lit "..." := by
  set_option maxRecDepth 100000 in decide

theorem issueSummaries_eq_flatten (issues : List Issue) :
    issueSummaries issues = (issues.map issueRecord).flatten := by
  unfold issueSummaries
  have key : ∀ (acc : GoString), issues.foldl (fun acc issue => acc ++ issueRecord issue) acc
      = acc ++ (issues.map issueRecord).flatten := by
    induction issues with
    | nil => intro acc; simp
    | cons issue more ih =>
      intro acc
      rw [List.foldl_cons, ih, List.map_cons, List.flatten_cons, List.append_assoc]
  simpa using key []

/-- C7 (amended): the request that `analyzeBatch` sends carries, in its user prompt, the
records of the issues of the batch in order; the record of an issue carries the rendered body
between "Body: " and the URL line; and for an issue whose body is made of single-byte (ASCII)
characters the rendered body is, when the body has more than 500 characters, the first 500
characters with newline collapsing applied (each CR LF pair and each LF replaced by one space)
followed by the literal "...", and, when it has at most 500 characters, the body with newline
collapsing applied and no ellipsis. -/
theorem renderBody_spec (complete : Completion) (calls : List CompletionRequest)
    (issues : List Issue) (opts : Options) :
    (analyzeBatch complete calls issues opts).2
      = calls ++
        [{ systemPrompt := batchSystemPrompt,
           userPrompt :=
             lit "Analyze these issues for themes about: "
               ++ strings.Join opts.FocusAreas (lit ", ") ++ lit "\n\n"
               ++ (issues.map issueRecord).flatten
               ++ lit "\n\nRespond with JSON only. Identify 3-5 themes with severity ratings.",
           maxTokens := 1000 }]
    ∧ ∀ issue ∈ issues,
        issueRecord issue
          = lit "---\nIssue #" ++ formatInt issue.Number ++ lit " [" ++ issue.State ++ lit "]: "
            ++ issue.Title
            ++ lit "\nLabels: " ++ strings.Join (issue.Labels.map (fun l => l.Name)) (lit ", ")
            ++ lit "\nComments: " ++ formatInt issue.Comments
            ++ lit "\nBody: " ++ renderBody issue.Body
            ++ lit "\nURL: " ++ issue.HTMLURL ++ lit "\n"
        ∧ (isASCII issue.Body = true →
            renderBody issue.Body
              = (if issue.Body.length > 500
                 then collapseNewlines (issue.Body.take 500) ++ lit "..."
                 else collapseNewlines issue.Body)) := by
  constructor
  · unfold analyzeBatch
    have hreq : batchRequest issues opts
        = { systemPrompt := batchSystemPrompt,
            userPrompt :=
              lit "Analyze these issues for themes about: "
                ++ strings.Join opts.FocusAreas (lit ", ") ++ lit "\n\n"
                ++ (issues.map issueRecord).flatten
                ++ lit "\n\nRespond with JSON only. Identify 3-5 themes with severity ratings.",
            maxTokens := 1000 } := by
      unfold batchRequest batchUserPrompt
      rw [issueSummaries_eq_flatten]
    rw [← hreq]
    cases h : complete calls.length (batchRequest issues opts) <;> simp only [h]
  · intro issue _
    exact ⟨rfl, fun _ => renderBody_bytes issue.Body⟩

/-- Witness for `renderBody_spec`: a batch of one issue whose body has 519 single-byte
characters; the rendered body is the first 500 of them with the CR LF pair and the LF turned
into spaces, followed by the ellipsis. -/
theorem renderBody_spec_witness :
    isASCII longBodyIssue.Body = true
    ∧ longBodyIssue.Body.length = 519
    ∧ renderBody longBodyIssue.Body
        = (if longBodyIssue.Body.length > 500
           then collapseNewlines (longBodyIssue.Body.take 500) ++ lit "..."
           else collapseNewlines longBodyIssue.Body)
    ∧ collapseNewlines (longBodyIssue.Body.take 500) ++ lit "..."
        = lit "line one line two " ++ List.replicate 481 'x' ++ lit "..." :=
  ⟨by set_option maxRecDepth 100000 in decide,
   by set_option maxRecDepth 100000 in decide,
   ((renderBody_spec emptyObjectCompletion [] [longBodyIssue] sampleOptions).2 longBodyIssue
      (List.mem_singleton_self _)).2 (by set_option maxRecDepth 100000 in decide),
   by set_option maxRecDepth 100000 in decide⟩

/-! ## Fence extraction (`parseAnalysis`) -/

theorem indexNat_of_firstAt (sub : GoString) :
    ∀ (pre post : GoString), ¬ sub <:+: pre ++ sub.dropLast →
      strings.indexNat (pre ++ sub ++ post) sub = some pre.length := by
  intro pre
  induction pre with
  | nil =>
    intro post _
    cases hs : sub ++ post with
    | nil =>
      have hsub : sub = [] := (List.append_eq_nil.mp hs).1
      have hpost : post = [] := (List.append_eq_nil.mp hs).2
      simp [strings.indexNat, hsub, hpost]
    | cons c rest =>
      have hp : sub.isPrefixOf (c :: rest) = true := by
        rw [List.isPrefixOf_iff_prefix, ← hs]
        exact List.prefix_append sub post
      simp only [List.nil_append, hs, strings.indexNat, hp, if_true, List.length_nil]
  | cons p pre ih =>
    intro post hno
    have hnp : ¬ (sub.isPrefixOf (p :: (pre ++ sub ++ post)) = true) := by
      rw [List.isPrefixOf_iff_prefix]
      intro hpre
      apply hno
      have h2 : (p :: pre) ++ sub.dropLast <+: p :: (pre ++ sub ++ post) := by
        have : p :: (pre ++ sub ++ post) = ((p :: pre) ++ sub.dropLast) ++ (sub.drop (sub.length - 1) ++ post) := by
          have hd : sub.dropLast ++ sub.drop (sub.length - 1) = sub := by
            rw [List.dropLast_eq_take]
            exact List.take_append_drop _ _
          simp only [List.cons_append, List.append_assoc]
          rw [← List.append_assoc sub.dropLast, hd]
        rw [this]
        exact List.prefix_append _ _
      have hlen : sub.length ≤ ((p :: pre) ++ sub.dropLast).length := by
        simp only [List.length_append, List.length_cons, List.length_dropLast]
        omega
      exact (List.prefix_of_prefix_length_le hpre h2 hlen).isInfix
    have hno2 : ¬ sub <:+: pre ++ sub.dropLast := by
      intro h
      apply hno
      obtain ⟨a, b, hab⟩ := h
      exact ⟨p :: a, b, by simp [← hab]⟩
    have hih := ih post hno2
    show strings.indexNat (p :: (pre ++ sub ++ post)) sub = some (pre.length + 1)
    rw [strings.indexNat, if_neg hnp, hih]
    rfl

theorem indexNat_of_absent (sub : GoString) :
    ∀ s : GoString, ¬ sub <:+: s → strings.indexNat s sub = none := by
  intro s
  induction s with
  | nil =>
    intro h
    have hne : sub ≠ [] := by
      rintro rfl
      exact h List.nil_infix
    simp [strings.indexNat, hne]
  | cons c rest ih =>
    intro h
    have hnp : ¬ (sub.isPrefixOf (c :: rest) = true) := by
      rw [List.isPrefixOf_iff_prefix]
      exact fun hp => h hp.isInfix
    have hrest : ¬ sub <:+: rest := by
      intro hr
      obtain ⟨a, b, hab⟩ := hr
      exact h ⟨c :: a, b, by simp [← hab]⟩
    simp [strings.indexNat, hnp, ih hrest]

theorem Index_of_firstAt (sub s pre post : GoString) (h : FirstAt sub s pre post) :
    strings.Index s sub = (pre.length : Int) := by
  obtain ⟨rfl, hno⟩ := h
  unfold strings.Index
  rw [indexNat_of_firstAt sub pre post hno]

theorem Index_of_absent (sub s : GoString) (h : ¬ sub <:+: s) :
    strings.Index s sub = -1 := by
  simp [strings.Index, indexNat_of_absent sub s h]

theorem firstAt_of_occurs (sub : GoString) (hne : sub ≠ []) :
    ∀ s : GoString, sub <:+: s → ∃ pre post, FirstAt sub s pre post := by
  intro s
  induction s with
  | nil =>
    intro h
    exact absurd (List.infix_nil.mp h) hne
  | cons c rest ih =>
    intro h
    by_cases hp : sub <+: c :: rest
    · obtain ⟨post, hpost⟩ := hp
      refine ⟨[], post, by simp [hpost], ?_⟩
      intro hin
      have hlen := hin.length_le
      have hpos : 0 < sub.length := List.length_pos.mpr hne
      simp only [List.nil_append, List.length_dropLast] at hlen
      omega
    · have hrest : sub <:+: rest := by
        rcases List.infix_cons_iff.mp h with h1 | h1
        · exact absurd h1 hp
        · exact h1
      obtain ⟨pre, post, hs, hno⟩ := ih hrest
      refine ⟨c :: pre, post, by simp [hs], ?_⟩
      intro hin
      rcases List.infix_cons_iff.mp hin with h1 | h1
      · apply hp
        have h2 : c :: (pre ++ sub.dropLast) <+: c :: rest := by
          have hd : sub.dropLast ++ sub.drop (sub.length - 1) = sub := by
            rw [List.dropLast_eq_take]
            exact List.take_append_drop _ _
          have : c :: rest = (c :: (pre ++ sub.dropLast)) ++ (sub.drop (sub.length - 1) ++ post) := by
            rw [hs]
            simp only [List.cons_append, List.append_assoc]
            rw [← List.append_assoc sub.dropLast, hd]
          rw [this]
          exact List.prefix_append _ _
        exact h1.trans h2
      · exact hno h1

theorem fence_infix_of_marked (s : GoString) (h : lit "```json" <:+: s) : lit "```" <:+: s :=
  List.IsInfix.trans (List.IsPrefix.isInfix ⟨lit "json", rfl⟩) h

theorem extractJSON_after_fence (rest : GoString) :
    (∀ mid post, FirstAt (lit "```") rest mid post →
      (let endIdx := strings.Index rest (lit "```")
       if endIdx ≠ -1 then rest.take endIdx.toNat else rest) = mid)
    ∧ (¬ lit "```" <:+: rest →
      (let endIdx := strings.Index rest (lit "```")
       if endIdx ≠ -1 then rest.take endIdx.toNat else rest) = rest) := by
  constructor
  · intro mid post h
    have hidx := Index_of_firstAt _ _ _ _ h
    obtain ⟨rfl, _⟩ := h
    simp only [hidx]
    have hne : ((mid.length : Int) ≠ -1) := by omega
    rw [if_pos hne]
    simp
  · intro h
    simp only [Index_of_absent _ _ h]
    simp

/-- C8: the text `parseAnalysis` hands to the decoder.  If the response contains the marked
fence, it is the trimmed text between the first marked fence and the next fence after it, or
the trimmed rest of the response when no fence follows (whatever precedes the marked fence,
bare fences included).  Otherwise, if it contains a fence, it is the trimmed text between the
first fence and the next one, or the trimmed rest when there is no second fence.  Otherwise it
is the trimmed response.  A text that occurs has a first occurrence, so the cases are
exhaustive. -/
theorem extractJSON_spec (response : GoString) :
    (∀ pre rest, FirstAt (lit "```json") response pre rest →
      (∀ mid post, FirstAt (lit "```") rest mid post →
        extractJSON response = strings.TrimSpace mid)
      ∧ (¬ lit "```" <:+: rest → extractJSON response = strings.TrimSpace rest))
    ∧ (¬ lit "```json" <:+: response → ∀ pre rest, FirstAt (lit "```") response pre rest →
      (∀ mid post, FirstAt (lit "```") rest mid post →
        extractJSON response = strings.TrimSpace mid)
      ∧ (¬ lit "```" <:+: rest → extractJSON response = strings.TrimSpace rest))
    ∧ (¬ lit "```" <:+: response → extractJSON response = strings.TrimSpace response)
    ∧ (∀ fence, fence = lit "```json" ∨ fence = lit "```" → fence <:+: response →
        ∃ pre rest, FirstAt fence response pre rest) := by
  refine ⟨?_, ?_, ?_, ?_⟩
  · intro pre rest h
    have hidx := Index_of_firstAt _ _ _ _ h
    obtain ⟨rfl, _⟩ := h
    have hne : ((pre.length : Int) ≠ -1) := by omega
    have hdrop : (pre ++ lit "```json" ++ rest).drop ((pre.length : Int) + 7).toNat = rest := by
      have : ((pre.length : Int) + 7).toNat = (pre ++ lit "```json").length := by
        have h7 : (lit "```json").length = 7 := rfl
        rw [List.length_append, h7]
        omega
      rw [this, List.drop_left]
    obtain ⟨h1, h2⟩ := extractJSON_after_fence rest
    constructor
    · intro mid post hm
      unfold extractJSON
      simp only [hidx, hne, hdrop]
      simp only [ne_eq, not_false_eq_true, if_true]
      exact congrArg strings.TrimSpace (h1 mid post hm)
    · intro hno
      unfold extractJSON
      simp only [hidx, hne, hdrop]
      simp only [ne_eq, not_false_eq_true, if_true]
      exact congrArg strings.TrimSpace (h2 hno)
  · intro hnm pre rest h
    have hidx := Index_of_firstAt _ _ _ _ h
    have hm := Index_of_absent _ _ hnm
    obtain ⟨rfl, _⟩ := h
    have hne : ((pre.length : Int) ≠ -1) := by omega
    have hdrop : (pre ++ lit "```" ++ rest).drop ((pre.length : Int) + 3).toNat = rest := by
      have : ((pre.length : Int) + 3).toNat = (pre ++ lit "```").length := by
        have h3 : (lit "```").length = 3 := rfl
        rw [List.length_append, h3]
        omega
      rw [this, List.drop_left]
    obtain ⟨h1, h2⟩ := extractJSON_after_fence rest
    constructor
    · intro mid post hmid
      unfold extractJSON
      simp only [hm, hidx, hne, hdrop]
      simp only [ne_eq, not_true_eq_false, not_false_eq_true, if_true, if_false]
      exact congrArg strings.TrimSpace (h1 mid post hmid)
    · intro hno
      unfold extractJSON
      simp only [hm, hidx, hne, hdrop]
      simp only [ne_eq, not_true_eq_false, not_false_eq_true, if_true, if_false]
      exact congrArg strings.TrimSpace (h2 hno)
  · intro hno
    have hnm : ¬ lit "```json" <:+: response := fun h => hno (fence_infix_of_marked response h)
    unfold extractJSON
    simp only [Index_of_absent _ _ hno, Index_of_absent _ _ hnm]
    simp
  · intro fence hf hin
    have hne : fence ≠ [] := by
      rcases hf with rfl | rfl <;> decide
    exact firstAt_of_occurs fence hne response hin

/-- Witness for `extractJSON_spec`: a bare fenced block comes first and a marked one later;
the text handed to the decoder is the trimmed inside of the marked block. -/
theorem extractJSON_spec_witness :
    FirstAt (lit "```json") (lit "```\nlog\n```\nResult:\n```json\n\x7b\x7d\n```\nDone.")
      (lit "```\nlog\n```\nResult:\n") (lit "\n\x7b\x7d\n```\nDone.")
    ∧ FirstAt (lit "```") (lit "\n\x7b\x7d\n```\nDone.") (lit "\n\x7b\x7d\n") (lit "\nDone.")
    ∧ extractJSON (lit "```\nlog\n```\nResult:\n```json\n\x7b\x7d\n```\nDone.")
        = strings.TrimSpace (lit "\n\x7b\x7d\n")
    ∧ strings.TrimSpace (lit "\n\x7b\x7d\n") = lit "\x7b\x7d" :=
  ⟨⟨rfl, by decide⟩, ⟨rfl, by decide⟩,
   ((extractJSON_spec (lit "```\nlog\n```\nResult:\n```json\n\x7b\x7d\n```\nDone.")).1
      (lit "```\nlog\n```\nResult:\n") (lit "\n\x7b\x7d\n```\nDone.") ⟨rfl, by decide⟩).1
      (lit "\n\x7b\x7d\n") (lit "\nDone.") ⟨rfl, by decide⟩,
   by decide⟩

/-! ## De-duplication (`searchIssues`) -/

theorem dedupAppend_append (all xs ys : List Issue) :
    dedupAppend all (xs ++ ys) = dedupAppend (dedupAppend all xs) ys := by
  unfold dedupAppend
  rw [List.foldl_append]

theorem dedupAppend_singleton (all : List Issue) (x : Issue) :
    dedupAppend all [x]
      = if all.any (fun existing => existing.Number = x.Number ∧ existing.Repo = x.Repo)
        then all else all ++ [x] := rfl

theorem any_sameKey_iff (all : List Issue) (x : Issue) :
    all.any (fun existing => existing.Number = x.Number ∧ existing.Repo = x.Repo) = true
      ↔ ∃ z ∈ all, sameKey z x := by
  simp [List.any_eq_true, sameKey]

/-- The list that de-duplication builds from the items fetched: its issues have pairwise
different keys, every fetched key is present, and each issue kept is the first one fetched with
its key. -/
theorem dedupAppend_nil_spec (fetched : List Issue) :
    (dedupAppend [] fetched).Pairwise (fun a b => ¬ sameKey a b)
    ∧ (∀ y ∈ fetched, ∃ z ∈ dedupAppend [] fetched, sameKey z y)
    ∧ (∀ x ∈ dedupAppend [] fetched, ∃ pre post,
        fetched = pre ++ x :: post ∧ ∀ y ∈ pre, ¬ sameKey y x) := by
  induction fetched using List.reverseRecOn with
  | nil => simp [dedupAppend]
  | append_singleton f x ih =>
    obtain ⟨h1, h2, h3⟩ := ih
    rw [dedupAppend_append, dedupAppend_singleton]
    by_cases hany : (dedupAppend [] f).any
        (fun existing => existing.Number = x.Number ∧ existing.Repo = x.Repo) = true
    · rw [if_pos hany]
      refine ⟨h1, ?_, ?_⟩
      · intro y hy
        rcases List.mem_append.mp hy with hy | hy
        · exact h2 y hy
        · rw [List.mem_singleton] at hy
          subst hy
          exact (any_sameKey_iff _ _).mp hany
      · intro z hz
        obtain ⟨pre, post, hf, hpre⟩ := h3 z hz
        exact ⟨pre, post ++ [x], by simp [hf], hpre⟩
    · rw [if_neg hany]
      have hnone : ∀ z ∈ dedupAppend [] f, ¬ sameKey z x := by
        intro z hz hk
        exact hany ((any_sameKey_iff _ _).mpr ⟨z, hz, hk⟩)
      refine ⟨?_, ?_, ?_⟩
      · rw [List.pairwise_append]
        refine ⟨h1, List.pairwise_singleton _ _, ?_⟩
        intro a ha b hb
        rw [List.mem_singleton] at hb
        subst hb
        exact hnone a ha
      · intro y hy
        rcases List.mem_append.mp hy with hy | hy
        · obtain ⟨z, hz, hk⟩ := h2 y hy
          exact ⟨z, List.mem_append_left _ hz, hk⟩
        · rw [List.mem_singleton] at hy
          subst hy
          exact ⟨y, List.mem_append_right _ (List.mem_singleton_self y), rfl, rfl⟩
      · intro z hz
        rcases List.mem_append.mp hz with hz | hz
        · obtain ⟨pre, post, hf, hpre⟩ := h3 z hz
          exact ⟨pre, post ++ [x], by simp [hf], hpre⟩
        · rw [List.mem_singleton] at hz
          subst hz
          refine ⟨f, [], rfl, ?_⟩
          intro y hy hk
          obtain ⟨w, hw, hwk⟩ := h2 y hy
          exact hnone w hw ⟨hwk.1.trans hk.1, hwk.2.trans hk.2⟩

theorem searchItems_append (c : Client) (owner repo : GoString) (k : Nat)
    (calls more : List GoString) :
    searchItems c owner repo k (calls ++ more)
      = searchItems c owner repo k calls ++ searchItems c owner repo (k + calls.length) more := by
  induction calls generalizing k with
  | nil => simp [searchItems]
  | cons e calls ih =>
    have hk : k + 1 + calls.length = k + (e :: calls).length := by
      simp only [List.length_cons]; omega
    show searchItems c owner repo k (e :: (calls ++ more)) = _
    rw [searchItems, searchItems, ih (k + 1), hk, List.append_assoc]

theorem searchPages_inv (c : Client) (owner repo : GoString) (opts : FetchOptions)
    (query : GoString) (fuel : Nat) :
    ∀ (page : Int) (st st' : FetchState), SearchInv c owner repo st →
      searchPages c owner repo opts query fuel page st = some st' → SearchInv c owner repo st' := by
  induction fuel with
  | zero =>
    intro page st st' hinv h
    unfold searchPages at h
    split at h
    · exact absurd h (by simp)
    · cases h; exact hinv
  | succ fuel ih =>
    intro page st st' hinv h
    unfold searchPages at h
    split at h
    · simp only at h
      have happ : ∀ e, searchItems c owner repo 0 (st.calls ++ [e])
          = searchItems c owner repo 0 st.calls
            ++ (match c.fetchSearchPage st.calls.length e with
                | .ok items => items.map (setRepo owner repo)
                | .error _ => []) := by
        intro e
        rw [searchItems_append]
        simp [searchItems]
      cases hr : c.fetchSearchPage st.calls.length (searchEndpoint c query page) with
      | error err =>
        rw [hr] at h
        cases h
        refine ⟨hinv.1, ?_⟩
        simp only [happ, hr, List.append_nil]
        exact hinv.2
      | ok items =>
        rw [hr] at h
        simp only at h
        have hst : SearchInv c owner repo
            { allIssues := dedupAppend st.allIssues (items.map (setRepo owner repo)),
              calls := st.calls ++ [searchEndpoint c query page],
              fetched := st.fetched ++ items.map (setRepo owner repo) } := by
          refine ⟨?_, ?_⟩
          · simp only [dedupAppend_append, ← hinv.1]
          · simp only [happ, hr, ← hinv.2]
        split at h
        · rename_i h0
          cases h
          refine ⟨hinv.1, ?_⟩
          have hnil : items = [] := List.length_eq_zero.mp h0
          simp only [happ, hr, hnil, List.map_nil, List.append_nil]
          exact hinv.2
        · split at h
          · cases h; exact hst
          · exact ih _ _ _ hst h
    · cases h; exact hinv

theorem searchKeywords_inv (c : Client) (owner repo : GoString) (opts : FetchOptions)
    (fuel : Nat) (keywords : List GoString) :
    ∀ (st st' : FetchState), SearchInv c owner repo st →
      searchKeywords c owner repo opts fuel keywords st = some st' → SearchInv c owner repo st' := by
  induction keywords with
  | nil =>
    intro st st' hinv h
    simp only [searchKeywords] at h
    cases h; exact hinv
  | cons keyword more ih =>
    intro st st' hinv h
    simp only [searchKeywords] at h
    split at h
    · exact ih _ _ hinv h
    · split at h
      · exact absurd h (by simp)
      · rename_i st1 hst1
        exact ih _ _ (searchPages_inv c owner repo opts _ fuel 1 st st1 hinv hst1) h

theorem searchIssues_run (c : Client) (fuel : Nat) (owner repo : GoString) (opts : FetchOptions)
    (run : FetchRun) (hrun : searchIssues c fuel owner repo opts = some run) :
    run.result = cutToMax (dedupAppend [] run.fetched) opts.MaxItems
    ∧ run.fetched = searchItems c owner repo 0 run.calls := by
  unfold searchIssues at hrun
  split at hrun
  · exact absurd hrun (by simp)
  · rename_i st hst
    have hinv := searchKeywords_inv c owner repo opts fuel opts.Keywords {} st
      ⟨rfl, rfl⟩ hst
    cases hrun
    exact ⟨by simp only [hinv.1], hinv.2⟩

theorem cutToMax_prefix (allIssues : List Issue) (maxItems : Int) (issues : List Issue)
    (h : cutToMax allIssues maxItems = .ok issues) : issues <+: allIssues := by
  unfold cutToMax at h
  split at h
  · split at h
    · exact absurd h (by simp)
    · cases h; exact List.take_prefix _ _
  · cases h; exact List.prefix_refl _

/-- C9: for every keyword list and every behaviour of the search-page calls, when
`searchIssues` returns a list, no two issues of it have the same (issue number, repo) pair, and
each issue of it is the first issue with its pair among the items fetched, in fetch order (the
items of the calls made, call after call: a later duplicate is dropped, the earlier issue is
kept as it was). -/
theorem searchIssues_dedup (c : Client) (fuel : Nat) (owner repo : GoString)
    (opts : FetchOptions) (run : FetchRun) (issues : List Issue)
    (hrun : searchIssues c fuel owner repo opts = some run)
    (hok : run.result = .ok issues) :
    issues.Pairwise (fun a b => ¬ (a.Number = b.Number ∧ a.Repo = b.Repo))
    ∧ (∀ x ∈ issues, ∃ pre post, run.fetched = pre ++ x :: post
        ∧ ∀ y ∈ pre, ¬ (y.Number = x.Number ∧ y.Repo = x.Repo))
    ∧ run.fetched = searchItems c owner repo 0 run.calls := by
  obtain ⟨hres, hfetched⟩ := searchIssues_run c fuel owner repo opts run hrun
  rw [hok] at hres
  have hpre := cutToMax_prefix _ _ _ hres.symm
  obtain ⟨h1, _, h3⟩ := dedupAppend_nil_spec run.fetched
  refine ⟨h1.sublist hpre.sublist, ?_, hfetched⟩
  intro x hx
  exact h3 x (hpre.subset hx)

/-- Witness for `searchIssues_dedup`: issue 7 comes three times (twice in one page, once more
under a later keyword); the result holds it once, as first fetched. -/
theorem searchIssues_dedup_witness :
    searchIssues sampleClient 10 (lit "o") (lit "r") sampleSearchOptions = some sampleSearchRun
    ∧ sampleSearchRun.result = .ok [sampleIssue 7, sampleIssue 8, sampleIssue 9]
    ∧ ([sampleIssue 7, sampleIssue 8, sampleIssue 9].Pairwise
          (fun a b => ¬ (a.Number = b.Number ∧ a.Repo = b.Repo))
      ∧ (∀ x ∈ [sampleIssue 7, sampleIssue 8, sampleIssue 9], ∃ pre post,
          sampleSearchRun.fetched = pre ++ x :: post
          ∧ ∀ y ∈ pre, ¬ (y.Number = x.Number ∧ y.Repo = x.Repo))
      ∧ sampleSearchRun.fetched
          = searchItems sampleClient (lit "o") (lit "r") 0 sampleSearchRun.calls) :=
  ⟨by decide, rfl,
   searchIssues_dedup sampleClient 10 (lit "o") (lit "r") sampleSearchOptions sampleSearchRun
     [sampleIssue 7, sampleIssue 8, sampleIssue 9] (by decide) rfl⟩

/-! ## Errors of the fetch (`FetchIssues`) -/

theorem allPagesOk_append (c : Client) (calls : List GoString) (endpoint : GoString)
    (items : List Issue) (h : AllPagesOk c calls)
    (hr : c.fetchPage calls.length endpoint = .ok items) :
    AllPagesOk c (calls ++ [endpoint]) := by
  intro k e hk
  by_cases hlt : k < calls.length
  · rw [List.getElem?_append_left hlt] at hk
    exact h k e hk
  · have hge : calls.length ≤ k := by omega
    rw [List.getElem?_append_right hge] at hk
    have hk0 : k - calls.length = 0 := by
      by_contra hne
      have : 1 ≤ k - calls.length := by omega
      rw [List.getElem?_eq_none (by simpa using this)] at hk
      exact absurd hk (by simp)
    rw [hk0] at hk
    simp only [List.getElem?_cons_zero, Option.some.injEq] at hk
    have hkeq : k = calls.length := by omega
    subst hk
    rw [hkeq]
    exact ⟨items, hr⟩

/-- The listing loop with enough fuel: it ends; every call before the last succeeded; when it
ends by returning an error, the last call is the one that failed, with that error. -/
theorem pagedLoop_spec (c : Client) (owner repo : GoString) (opts : FetchOptions)
    (perPage : Int) (fuel : Nat) :
    ∀ (page : Int) (st : FetchState),
      (opts.MaxItems - (st.allIssues.length : Int)).toNat ≤ fuel → AllPagesOk c st.calls →
      ∃ ex st', pagedLoop c owner repo opts perPage fuel page st = some (ex, st')
        ∧ (ex = .done → AllPagesOk c st'.calls)
        ∧ (∀ err, ex = .failed err → ∃ before endpoint, st'.calls = before ++ [endpoint]
            ∧ AllPagesOk c before ∧ c.fetchPage before.length endpoint = .error err) := by
  induction fuel with
  | zero =>
    intro page st hfuel hok
    have hnot : ¬ ((st.allIssues.length : Int) < opts.MaxItems) := by omega
    exact ⟨.done, st, by simp [pagedLoop, hnot], fun _ => hok, fun err h => by cases h⟩
  | succ fuel ih =>
    intro page st hfuel hok
    unfold pagedLoop
    by_cases hlt : (st.allIssues.length : Int) < opts.MaxItems
    · simp only [hlt, if_true]
      cases hr : c.fetchPage st.calls.length (pageEndpoint c owner repo opts page perPage) with
      | error err =>
        refine ⟨.failed err, _, rfl, fun h => (by cases h), ?_⟩
        intro err' h
        cases h
        exact ⟨st.calls, _, rfl, hok, hr⟩
      | ok items =>
        have hok' := allPagesOk_append c st.calls _ items hok hr
        simp only
        by_cases h0 : items.length = 0
        · simp only [h0, if_true]
          exact ⟨.done, _, rfl, fun _ => hok', fun err h => by cases h⟩
        · simp only [h0, if_false]
          by_cases hshort : ((items.map (setRepo owner repo)).length : Int) < perPage
          · simp only [hshort, if_true]
            exact ⟨.done, _, rfl, fun _ => hok', fun err h => by cases h⟩
          · simp only [hshort, if_false]
            apply ih
            · simp only [List.length_append, List.length_map]
              push_cast
              omega
            · exact hok'
    · simp only [hlt, if_false]
      exact ⟨.done, st, rfl, fun _ => hok, fun err h => by cases h⟩

theorem cutToMax_ne_error (allIssues : List Issue) (maxItems : Int) (err : GoString) :
    cutToMax allIssues maxItems ≠ .error err := by
  unfold cutToMax
  split
  · split <;> simp
  · simp

theorem cutToMax_of_nonneg (allIssues : List Issue) (maxItems : Int) (h : 0 ≤ maxItems) :
    cutToMax allIssues maxItems = .ok (allIssues.take maxItems.toNat) := by
  unfold cutToMax
  split
  · rw [if_neg (by omega)]
  · rw [List.take_of_length_le (by omega)]

theorem searchPages_short (c : Client) (owner repo : GoString) (opts : FetchOptions)
    (query : GoString) (fuel : Nat) (page : Int) (st : FetchState)
    (hshort : ∀ k endpoint items, c.fetchSearchPage k endpoint = .ok items → items.length < 100) :
    ∃ st', searchPages c owner repo opts query (fuel + 1) page st = some st' := by
  unfold searchPages
  by_cases hlt : (st.allIssues.length : Int) < opts.MaxItems
  · simp only [hlt, if_true]
    cases hr : c.fetchSearchPage st.calls.length (searchEndpoint c query page) with
    | error err => exact ⟨_, rfl⟩
    | ok items =>
      simp only
      by_cases h0 : items.length = 0
      · simp only [h0, if_true]
        exact ⟨_, rfl⟩
      · have hs : (items.map (setRepo owner repo)).length < 100 := by
          rw [List.length_map]
          exact hshort _ _ _ hr
        simp only [h0, if_false, hs, if_true]
        exact ⟨_, rfl⟩
  · simp only [hlt, if_false]
    exact ⟨_, rfl⟩

theorem searchKeywords_short (c : Client) (owner repo : GoString) (opts : FetchOptions)
    (fuel : Nat) (keywords : List GoString)
    (hshort : ∀ k endpoint items, c.fetchSearchPage k endpoint = .ok items → items.length < 100) :
    ∀ st, ∃ st', searchKeywords c owner repo opts (fuel + 1) keywords st = some st' := by
  induction keywords with
  | nil => exact fun st => ⟨st, rfl⟩
  | cons keyword more ih =>
    intro st
    simp only [searchKeywords]
    split
    · exact ih st
    · obtain ⟨st1, h1⟩ := searchPages_short c owner repo opts
        (searchQuery owner repo opts (strings.TrimSpace keyword)) fuel 1 st hshort
      rw [h1]
      exact ih st1

theorem searchPagesOf_succ (c : Client) (query : GoString) (page : Int) (p : Nat) :
    searchPagesOf c query page (p + 1)
      = searchEndpoint c query page :: searchPagesOf c query (page + 1) p := by
  unfold searchPagesOf
  rw [List.range_succ_eq_map, List.map_cons, List.map_map]
  congr 1
  · simp
  · apply List.map_congr_left
    intro j _
    simp only [Function.comp_apply, Nat.succ_eq_add_one, Nat.cast_add, Nat.cast_one]
    congr 1
    omega

theorem searchPagesOf_length (c : Client) (query : GoString) (page : Int) (p : Nat) :
    (searchPagesOf c query page p).length = p := by
  simp [searchPagesOf]

theorem searchPagesOf_getElem (c : Client) (query : GoString) (page : Int) (p j : Nat)
    (endpoint : GoString) (h : (searchPagesOf c query page p)[j]? = some endpoint) :
    j < p ∧ endpoint = searchEndpoint c query (page + (j : Int)) := by
  unfold searchPagesOf at h
  rw [List.getElem?_map] at h
  by_cases hj : j < p
  · rw [List.getElem?_range hj] at h
    simp only [Option.map_some', Option.some.injEq] at h
    exact ⟨hj, h.symm⟩
  · rw [List.getElem?_eq_none (by simpa using hj)] at h
    exact absurd h (by simp)

/-- The calls of the search loop for one query: consecutive pages from `page` on; a failed call
is the last of them, and after it the loop condition still holds. -/
theorem searchPages_calls (c : Client) (owner repo : GoString) (opts : FetchOptions)
    (query : GoString) (fuel : Nat) :
    ∀ (page : Int) (st st' : FetchState),
      searchPages c owner repo opts query fuel page st = some st' →
      ∃ p, st'.calls = st.calls ++ searchPagesOf c query page p
        ∧ ((st.allIssues.length : Int) < opts.MaxItems → 0 < p)
        ∧ ∀ j err, j < p →
            c.fetchSearchPage (st.calls.length + j) (searchEndpoint c query (page + (j : Int)))
              = .error err →
            j + 1 = p ∧ (st'.allIssues.length : Int) < opts.MaxItems := by
  induction fuel with
  | zero =>
    intro page st st' h
    unfold searchPages at h
    split at h
    · exact absurd h (by simp)
    · rename_i hcond
      cases h
      exact ⟨0, by simp [searchPagesOf], fun hc => absurd hc hcond, fun j err hj => by omega⟩
  | succ fuel ih =>
    intro page st st' h
    unfold searchPages at h
    split at h
    · rename_i hcond
      simp only at h
      have hone : searchPagesOf c query page 1 = [searchEndpoint c query page] := by
        rw [searchPagesOf_succ]
        simp [searchPagesOf]
      cases hr : c.fetchSearchPage st.calls.length (searchEndpoint c query page) with
      | error err =>
        rw [hr] at h
        cases h
        refine ⟨1, by rw [hone], fun _ => Nat.one_pos, ?_⟩
        intro j err' hj _
        exact ⟨by omega, hcond⟩
      | ok items =>
        rw [hr] at h
        simp only at h
        have hfirst : ∀ j err, j < 1 →
            c.fetchSearchPage (st.calls.length + j) (searchEndpoint c query (page + (j : Int)))
              = .error err → False := by
          intro j err hj hfail
          have hj0 : j = 0 := by omega
          subst hj0
          simp only [Nat.add_zero, Nat.cast_zero, add_zero] at hfail
          rw [hr] at hfail
          cases hfail
        split at h
        · cases h
          exact ⟨1, by rw [hone], fun _ => Nat.one_pos,
            fun j err hj hfail => (hfirst j err hj hfail).elim⟩
        · split at h
          · cases h
            exact ⟨1, by rw [hone], fun _ => Nat.one_pos,
              fun j err hj hfail => (hfirst j err hj hfail).elim⟩
          · obtain ⟨p, hcalls, _, hfail⟩ := ih _ _ _ h
            refine ⟨p + 1, ?_, fun _ => Nat.succ_pos p, ?_⟩
            · rw [hcalls, searchPagesOf_succ]
              simp
            · intro j err hj hjfail
              cases j with
              | zero => exact (hfirst 0 err Nat.one_pos hjfail).elim
              | succ j =>
                have hidx : (st.calls ++ [searchEndpoint c query page]).length + j
                    = st.calls.length + (j + 1) := by
                  simp only [List.length_append, List.length_singleton]; omega
                have hpage : page + 1 + (j : Int) = page + ((j + 1 : Nat) : Int) := by
                  push_cast; omega
                have := hfail j err (by omega) (by
                  show c.fetchSearchPage ((st.calls ++ [searchEndpoint c query page]).length + j)
                    (searchEndpoint c query (page + 1 + (j : Int))) = .error err
                  rw [hidx, hpage]
                  exact hjfail)
                exact ⟨by omega, this.2⟩
    · rename_i hcond
      cases h
      exact ⟨0, by simp [searchPagesOf], fun hc => absurd hc hcond, fun j err hj => by omega⟩

/-- The calls of the keyword loop: one run of consecutive pages, from page 1 on, per non-blank
keyword, in keyword order; a failed call is the last of its keyword, and the keyword after it,
if there is one, gets its first page requested. -/
theorem searchKeywords_calls (c : Client) (owner repo : GoString) (opts : FetchOptions)
    (fuel : Nat) (keywords : List GoString) :
    ∀ (st st' : FetchState), searchKeywords c owner repo opts fuel keywords st = some st' →
      ∃ segments : List (List GoString), st'.calls = st.calls ++ segments.flatten
        ∧ List.Forall₂
            (fun keyword seg =>
              ∃ p, seg = searchPagesOf c (searchQuery owner repo opts keyword) 1 p)
            ((keywords.map strings.TrimSpace).filter (fun keyword => decide (keyword ≠ [])))
            segments
        ∧ ((st.allIssues.length : Int) < opts.MaxItems →
            ∀ first, segments[0]? = some first → first ≠ [])
        ∧ ∀ i seg j endpoint err, segments[i]? = some seg → seg[j]? = some endpoint →
            c.fetchSearchPage (st.calls.length + (segments.take i).flatten.length + j) endpoint
              = .error err →
            j + 1 = seg.length ∧ ∀ next, segments[i + 1]? = some next → next ≠ [] := by
  induction keywords with
  | nil =>
    intro st st' h
    simp only [searchKeywords] at h
    cases h
    refine ⟨[], by simp, by simp, by simp, ?_⟩
    intro i seg j endpoint err hseg
    simp at hseg
  | cons keyword more ih =>
    intro st st' h
    simp only [searchKeywords] at h
    split at h
    · rename_i hblank
      obtain ⟨segments, h1, h2, h3, h4⟩ := ih st st' h
      refine ⟨segments, h1, ?_, h3, h4⟩
      simpa [List.filter_cons, hblank] using h2
    · rename_i hblank
      split at h
      · exact absurd h (by simp)
      · rename_i st1 hst1
        obtain ⟨p, hcalls, hpos, hfail⟩ := searchPages_calls c owner repo opts _ fuel 1 st st1 hst1
        obtain ⟨segments, h1, h2, h3, h4⟩ := ih st1 st' h
        have hlen1 : st1.calls.length = st.calls.length + p := by
          rw [hcalls, List.length_append, searchPagesOf_length]
        refine ⟨searchPagesOf c (searchQuery owner repo opts (strings.TrimSpace keyword)) 1 p
          :: segments, ?_, ?_, ?_, ?_⟩
        · rw [h1, hcalls, List.flatten_cons, List.append_assoc]
        · simp only [List.map_cons, List.filter_cons, hblank, ne_eq, not_false_eq_true,
            decide_True, if_true]
          exact List.Forall₂.cons ⟨p, rfl⟩ h2
        · intro hcond first hfirst
          simp only [List.getElem?_cons_zero, Option.some.injEq] at hfirst
          subst hfirst
          intro hnil
          have := congrArg List.length hnil
          rw [searchPagesOf_length] at this
          have := hpos hcond
          simp at *
          omega
        · intro i seg j endpoint err hseg hj hjfail
          cases i with
          | zero =>
            simp only [List.getElem?_cons_zero, Option.some.injEq] at hseg
            subst hseg
            obtain ⟨hjp, hep⟩ := searchPagesOf_getElem c _ 1 p j endpoint hj
            simp only [List.take_zero, List.flatten_nil, List.length_nil, Nat.add_zero] at hjfail
            rw [hep] at hjfail
            obtain ⟨hlast, hmore⟩ := hfail j err hjp hjfail
            refine ⟨by rw [searchPagesOf_length]; exact hlast, ?_⟩
            intro next hnext
            simp only [Nat.zero_add, List.getElem?_cons_succ] at hnext
            exact h3 hmore next hnext
          | succ i =>
            simp only [List.getElem?_cons_succ] at hseg
            have hoff : st.calls.length
                + ((searchPagesOf c (searchQuery owner repo opts (strings.TrimSpace keyword)) 1 p
                    :: segments).take (i + 1)).flatten.length + j
                = st1.calls.length + (segments.take i).flatten.length + j := by
              rw [List.take_succ_cons, List.flatten_cons, List.length_append,
                searchPagesOf_length, hlen1]
              omega
            rw [hoff] at hjfail
            obtain ⟨hlast, hnext⟩ := h4 i seg j endpoint err hseg hj hjfail
            refine ⟨hlast, ?_⟩
            intro next hn
            simp only [List.getElem?_cons_succ] at hn
            exact hnext next hn

/-! ## Failed batches (`AnalyzeIssues`) -/

theorem okResponses_eq_filterMap (complete : Completion) (opts : Options) (k : Nat)
    (bs : List (List Issue)) :
    okResponses complete opts k bs
      = (bs.enumFrom k).filterMap (fun kb =>
          match complete kb.1 (batchRequest kb.2 opts) with
          | .ok response => some response
          | .error _ => none) := by
  induction bs generalizing k with
  | nil => rfl
  | cons b bs ih =>
    rw [okResponses, List.enumFrom_cons, List.filterMap_cons]
    cases h : complete k (batchRequest b opts) <;> simp only [h, ih]

theorem synthesizeAnalyses_log (unmarshal : GoString → Option RawAnalysis)
    (complete : Completion) (calls : List CompletionRequest) (batchAnalyses : List GoString)
    (issues : List Issue) (opts : Options) :
    (synthesizeAnalyses unmarshal complete calls batchAnalyses issues opts).2
      = calls ++ (if 2 ≤ batchAnalyses.length then [synthesisRequest batchAnalyses opts]
                  else []) := by
  match batchAnalyses with
  | [] => simp [synthesizeAnalyses]
  | [r] => simp [synthesizeAnalyses]
  | r1 :: r2 :: more =>
    rw [synthesizeAnalyses_many unmarshal complete calls (r1 :: r2 :: more) issues opts
      (by simp)]
    simp

/-- C11: for every issue list and every behaviour of the Completion Service, the batches
analysed are the partition of the issue list in order, the calls made are one batch request per
batch, in batch order, followed only by the merge request when two or more batches succeeded
(so no batch is asked twice and a failure stops nothing), and the per-batch results handed to
synthesis are the responses of the successful batch calls, in batch order (a failed call
contributes nothing). -/
theorem AnalyzeIssues_failed_batches (unmarshal : GoString → Option RawAnalysis)
    (complete : Completion) (issues : List Issue) (opts : Options) :
    (AnalyzeIssues unmarshal complete issues opts).batches.flatten = issues
    ∧ (AnalyzeIssues unmarshal complete issues opts).calls
        = (AnalyzeIssues unmarshal complete issues opts).batches.map
            (fun b => batchRequest b opts)
          ++ (if 2 ≤ (AnalyzeIssues unmarshal complete issues opts).batchAnalyses.length
              then [synthesisRequest
                      (AnalyzeIssues unmarshal complete issues opts).batchAnalyses opts]
              else [])
    ∧ (AnalyzeIssues unmarshal complete issues opts).batchAnalyses
        = (AnalyzeIssues unmarshal complete issues opts).batches.enum.filterMap (fun kb =>
            match complete kb.1 (batchRequest kb.2 opts) with
            | .ok response => some response
            | .error _ => none)
    ∧ ((AnalyzeIssues unmarshal complete issues opts).result,
       (AnalyzeIssues unmarshal complete issues opts).calls)
        = synthesizeAnalyses unmarshal complete
            ((AnalyzeIssues unmarshal complete issues opts).batches.map
              (fun b => batchRequest b opts))
            (AnalyzeIssues unmarshal complete issues opts).batchAnalyses issues opts := by
  obtain ⟨hba, hrun⟩ := AnalyzeIssues_run unmarshal complete issues opts
  have hb := AnalyzeIssues_batches_eq unmarshal complete issues opts
  have hflat := (loopBatches_spec issues issues.length 0 (by omega)).1
  refine ⟨?_, ?_, ?_, ?_⟩
  · rw [hb, hflat]; rfl
  · have hcalls := congrArg Prod.snd hrun
    simp only at hcalls
    rw [hcalls, synthesizeAnalyses_log, hb, hba]
  · rw [hba, hb, okResponses_eq_filterMap]
    rfl
  · rw [hrun, hb, hba]

/-- Witness for `AnalyzeIssues_failed_batches`: 45 issues, the second batch call fails; three
batches are attempted, and the first and third responses reach synthesis, which adds one merge
call. -/
theorem AnalyzeIssues_failed_batches_witness :
    (AnalyzeIssues jsonUnmarshal secondCallFails (sampleIssues 45) sampleOptions).batches.map
        List.length = [20, 20, 5]
    ∧ (AnalyzeIssues jsonUnmarshal secondCallFails (sampleIssues 45) sampleOptions).batchAnalyses
        = [lit "\x7b\x7d", lit "\x7b\x7d"]
    ∧ (AnalyzeIssues jsonUnmarshal secondCallFails (sampleIssues 45) sampleOptions).calls.length
        = 4
    ∧ (AnalyzeIssues jsonUnmarshal secondCallFails (sampleIssues 45) sampleOptions).batches.flatten
        = sampleIssues 45 :=
  ⟨by decide, by decide, by decide,
   (AnalyzeIssues_failed_batches jsonUnmarshal secondCallFails (sampleIssues 45) sampleOptions).1⟩

/-! ## Notable quotes (`parseAnalysis`) -/

theorem convertQuote_spec (issueURLs : URLMap) (q : RawQuote) :
    (convertQuote issueURLs q).Text = q.Text
    ∧ (∀ url, issueURLs q.IssueNumber = some url →
        (convertQuote issueURLs q).IssueURL = url
        ∧ (convertQuote issueURLs q).Source = lit "Issue #" ++ formatInt q.IssueNumber)
    ∧ (issueURLs q.IssueNumber = none →
        (convertQuote issueURLs q).Source = [] ∧ (convertQuote issueURLs q).IssueURL = []) := by
  unfold convertQuote
  cases h : issueURLs q.IssueNumber with
  | none => simp
  | some u =>
    refine ⟨rfl, ?_, ?_⟩
    · intro url hurl
      cases hurl
      exact ⟨rfl, rfl⟩
    · intro hn
      cases hn

/-- C12: for every decoded response and every lookup m, the Quotes of the Analysis correspond
one to one, in order, to the decoded notable quotes: each Quote has the text of its notable
quote; when the issue number n of the notable quote is a key of m the Quote has IssueURL = m[n]
and Source = "Issue #n"; when it is not, the Quote is kept with empty Source and empty
IssueURL. -/
theorem parseAnalysis_quotes (unmarshal : GoString → Option RawAnalysis)
    (response : GoString) (issueURLs : URLMap) (issueCount : Int) (rawAnalysis : RawAnalysis)
    (h : unmarshal (extractJSON response) = some rawAnalysis) :
    ∃ analysis, parseAnalysis unmarshal response issueURLs issueCount = .ok analysis
      ∧ analysis.Quotes.length = rawAnalysis.NotableQuotes.length
      ∧ analysis.Quotes.map (fun quote => quote.Text)
          = rawAnalysis.NotableQuotes.map (fun q => q.Text)
      ∧ List.Forall₂
          (fun (q : RawQuote) (quote : Quote) =>
            quote.Text = q.Text
            ∧ (∀ url, issueURLs q.IssueNumber = some url →
                quote.IssueURL = url ∧ quote.Source = lit "Issue #" ++ formatInt q.IssueNumber)
            ∧ (issueURLs q.IssueNumber = none → quote.Source = [] ∧ quote.IssueURL = []))
          rawAnalysis.NotableQuotes analysis.Quotes := by
  refine ⟨_, parseAnalysis_decoded unmarshal response issueURLs issueCount rawAnalysis h,
    ?_, ?_, ?_⟩
  · simp
  · simp only [List.map_map, Function.comp_def, (convertQuote_spec issueURLs _).1]
  · rw [List.forall₂_map_right_iff, List.forall₂_same]
    intro q _
    exact convertQuote_spec issueURLs q

/-- Witness for `parseAnalysis_quotes`: two notable quotes, about issue 1 (in the lookup) and
issue 2 (not in it); both are kept, the first with source and URL, the second with text
only. -/
theorem parseAnalysis_quotes_witness :
    jsonUnmarshal (extractJSON (lit
        "\x7b\"notable_quotes\":[\x7b\"text\":\"slow\",\"issue_number\":1\x7d,\x7b\"text\":\"hangs\",\"issue_number\":2\x7d]\x7d"))
      = some { NotableQuotes := [{ Text := lit "slow", IssueNumber := 1 },
                                 { Text := lit "hangs", IssueNumber := 2 }] }
    ∧ parseAnalysis jsonUnmarshal (lit
        "\x7b\"notable_quotes\":[\x7b\"text\":\"slow\",\"issue_number\":1\x7d,\x7b\"text\":\"hangs\",\"issue_number\":2\x7d]\x7d")
        (URLMap.empty.set 1 (lit "url1")) 2
      = .ok { Themes := [], KeyInsights := [],
              Quotes := [{ Text := lit "slow", Source := lit "Issue #1", IssueURL := lit "url1" },
                         { Text := lit "hangs", Source := [], IssueURL := [] }],
              ActionItems := [], RawIssueCount := 2 }
    ∧ (∃ analysis,
        parseAnalysis jsonUnmarshal (lit
          "\x7b\"notable_quotes\":[\x7b\"text\":\"slow\",\"issue_number\":1\x7d,\x7b\"text\":\"hangs\",\"issue_number\":2\x7d]\x7d")
          (URLMap.empty.set 1 (lit "url1")) 2 = .ok analysis
        ∧ analysis.Quotes.length = 2) :=
  ⟨by set_option maxRecDepth 100000 in decide,
   by set_option maxRecDepth 100000 in rfl,
   (parseAnalysis_quotes jsonUnmarshal _ (URLMap.empty.set 1 (lit "url1")) 2
      { NotableQuotes := [{ Text := lit "slow", IssueNumber := 1 },
                          { Text := lit "hangs", IssueNumber := 2 }] }
      (by set_option maxRecDepth 100000 in decide)).imp
      (fun _ hq => ⟨hq.1, hq.2.1⟩)⟩

/-! ## The max count (`FetchIssues`) -/

theorem pageItems_snoc (c : Client) (owner repo : GoString) (calls : List GoString)
    (endpoint : GoString) :
    ∀ k, pageItems c owner repo k (calls ++ [endpoint])
      = pageItems c owner repo k calls
        ++ (match c.fetchPage (k + calls.length) endpoint with
            | .ok issues => issues.map (setRepo owner repo)
            | .error _ => []) := by
  induction calls with
  | nil => intro k; simp [pageItems]
  | cons e calls ih =>
    intro k
    have hk : k + 1 + calls.length = k + (e :: calls).length := by
      simp only [List.length_cons]; omega
    show pageItems c owner repo k (e :: (calls ++ [endpoint])) = _
    rw [pageItems, pageItems, ih (k + 1), hk, List.append_assoc]

theorem pagedLoop_inv (c : Client) (owner repo : GoString) (opts : FetchOptions)
    (perPage : Int) (fuel : Nat) :
    ∀ (page : Int) (st : FetchState) (ex : LoopExit) (st' : FetchState),
      PagedInv c owner repo st →
      pagedLoop c owner repo opts perPage fuel page st = some (ex, st') →
      PagedInv c owner repo st' := by
  induction fuel with
  | zero =>
    intro page st ex st' hinv h
    unfold pagedLoop at h
    split at h
    · exact absurd h (by simp)
    · cases h; exact hinv
  | succ fuel ih =>
    intro page st ex st' hinv h
    unfold pagedLoop at h
    split at h
    · simp only at h
      have happ := pageItems_snoc c owner repo st.calls
        (pageEndpoint c owner repo opts page perPage) 0
      rw [Nat.zero_add] at happ
      cases hr : c.fetchPage st.calls.length (pageEndpoint c owner repo opts page perPage) with
      | error err =>
        rw [hr] at h happ
        cases h
        refine ⟨hinv.1, ?_⟩
        simp only [happ, List.append_nil]
        exact hinv.2
      | ok items =>
        rw [hr] at h happ
        simp only at h happ
        have hst : PagedInv c owner repo
            { allIssues := st.allIssues ++ items.map (setRepo owner repo),
              calls := st.calls ++ [pageEndpoint c owner repo opts page perPage],
              fetched := st.fetched ++ items.map (setRepo owner repo) } := by
          refine ⟨?_, ?_⟩
          · simp only [hinv.1]
          · simp only [happ, ← hinv.2]
        split at h
        · rename_i h0
          cases h
          refine ⟨hinv.1, ?_⟩
          have hnil : items = [] := List.length_eq_zero.mp h0
          simp only [happ, hnil, List.map_nil, List.append_nil]
          exact hinv.2
        · split at h
          · cases h; exact hst
          · exact ih _ _ _ _ hst h
    · cases h; exact hinv

theorem take_toNat_length_le (l : List Issue) (m : Int) (h : 0 ≤ m) :
    ((l.take m.toNat).length : Int) ≤ m := by
  have := List.length_take_le m.toNat l
  omega

/-- C13: for every max count M >= 0, every filter and every behaviour of the page calls, a run
of `FetchIssues` that returns does not panic, and a list it returns has at most M issues and is
the first M (or all) of the issues collected in fetch order: the items of the calls made on the
listing path, their de-duplication on the search path.  On the listing path the run does
return, given fuel for M pages. -/
theorem FetchIssues_max_items (c : Client) (fuel : Nat) (owner repo : GoString)
    (opts : FetchOptions) (hM : 0 ≤ opts.MaxItems) :
    (∀ run, FetchIssues c fuel owner repo opts = some run →
      run.result ≠ .panic
      ∧ run.fetched = (if opts.Keywords = [] then pageItems c owner repo 0 run.calls
                       else searchItems c owner repo 0 run.calls)
      ∧ ∀ issues, run.result = .ok issues →
          (issues.length : Int) ≤ opts.MaxItems
          ∧ issues = (collected opts run.fetched).take opts.MaxItems.toNat
          ∧ issues <+: collected opts run.fetched)
    ∧ (opts.Keywords = [] → opts.MaxItems.toNat ≤ fuel →
        ∃ run, FetchIssues c fuel owner repo opts = some run) := by
  constructor
  · intro run hrun
    by_cases hkw : opts.Keywords = []
    · unfold FetchIssues at hrun
      simp only [hkw, List.length_nil, gt_iff_lt, lt_self_iff_false, if_false] at hrun
      simp only [collected, hkw, if_true]
      split at hrun
      · exact absurd hrun (by simp)
      · rename_i err st hloop
        have hinv := pagedLoop_inv c owner repo opts _ fuel 1 {} _ st ⟨rfl, rfl⟩ hloop
        cases hrun
        refine ⟨by simp, hinv.2, ?_⟩
        intro issues h
        cases h
      · rename_i st hloop
        have hinv := pagedLoop_inv c owner repo opts _ fuel 1 {} _ st ⟨rfl, rfl⟩ hloop
        cases hrun
        simp only [cutToMax_of_nonneg _ _ hM]
        refine ⟨by simp, hinv.2, ?_⟩
        intro issues h
        cases h
        rw [hinv.1]
        exact ⟨take_toNat_length_le _ _ hM, rfl, List.take_prefix _ _⟩
    · have hpos : opts.Keywords.length > 0 := List.length_pos.mpr hkw
      unfold FetchIssues at hrun
      rw [if_pos hpos] at hrun
      obtain ⟨hres, hfetched⟩ := searchIssues_run c fuel owner repo opts run hrun
      simp only [collected, hkw, if_false]
      rw [hres, cutToMax_of_nonneg _ _ hM]
      refine ⟨by simp, hfetched, ?_⟩
      intro issues h
      cases h
      exact ⟨take_toNat_length_le _ _ hM, rfl, List.take_prefix _ _⟩
  · intro hkw hfuel
    obtain ⟨ex, st', hloop, _, _⟩ :=
      pagedLoop_spec c owner repo opts (if opts.MaxItems < 100 then opts.MaxItems else 100) fuel 1 {}
        (by simpa using hfuel) (by intro k e h; simp at h)
    unfold FetchIssues
    simp only [hkw, List.length_nil, gt_iff_lt, lt_self_iff_false, if_false, hloop]
    cases ex <;> exact ⟨_, rfl⟩

/-- Witness for `FetchIssues_max_items`: max count 2 and a page that holds three issues; the
first two are returned. -/
theorem FetchIssues_max_items_witness :
    (0 : Int) ≤ sampleTwoOptions.MaxItems
    ∧ FetchIssues threePerPageClient 2 (lit "o") (lit "r") sampleTwoOptions = some sampleTwoRun
    ∧ (([sampleIssue 0, sampleIssue 1].length : Int) ≤ sampleTwoOptions.MaxItems
        ∧ [sampleIssue 0, sampleIssue 1]
            = (collected sampleTwoOptions sampleTwoRun.fetched).take sampleTwoOptions.MaxItems.toNat
        ∧ [sampleIssue 0, sampleIssue 1] <+: collected sampleTwoOptions sampleTwoRun.fetched) :=
  ⟨by decide, by decide,
   ((FetchIssues_max_items threePerPageClient 2 (lit "o") (lit "r") sampleTwoOptions
      (by decide)).1 sampleTwoRun (by decide)).2.2 [sampleIssue 0, sampleIssue 1] rfl⟩

/-! ## The issue-URL lookup (`synthesizeAnalyses`) -/

theorem buildIssueURLs_snoc (issues : List Issue) (x : Issue) :
    buildIssueURLs (issues ++ [x]) = (buildIssueURLs issues).set x.Number x.HTMLURL := by
  unfold buildIssueURLs
  rw [List.foldl_concat]

theorem lastURL_snoc (issues : List Issue) (x : Issue) (n : Int) :
    lastURL (issues ++ [x]) n = if n = x.Number then some x.HTMLURL else lastURL issues n := by
  unfold lastURL
  rw [List.reverse_append, List.reverse_singleton, List.singleton_append, List.find?_cons]
  by_cases h : n = x.Number
  · subst h
    simp
  · have h2 : ¬ x.Number = n := fun hc => h hc.symm
    simp [h, h2]

theorem buildIssueURLs_eq_lastURL (issues : List Issue) (n : Int) :
    buildIssueURLs issues n = lastURL issues n := by
  induction issues using List.reverseRecOn with
  | nil => rfl
  | append_singleton l x ih =>
    rw [buildIssueURLs_snoc, lastURL_snoc, ← ih]
    rfl

theorem lastURL_of_last (pre post : List Issue) (x : Issue)
    (h : ∀ y ∈ post, y.Number ≠ x.Number) :
    lastURL (pre ++ x :: post) x.Number = some x.HTMLURL := by
  unfold lastURL
  have hnone : post.reverse.find? (fun issue => issue.Number = x.Number) = none := by
    rw [List.find?_eq_none]
    intro y hy
    simpa using h y (List.mem_reverse.mp hy)
  rw [List.reverse_append, List.reverse_cons, List.append_assoc, List.find?_append, hnone]
  simp

theorem lastURL_isSome_iff (issues : List Issue) (n : Int) :
    (∃ url, lastURL issues n = some url) ↔ ∃ issue ∈ issues, issue.Number = n := by
  unfold lastURL
  constructor
  · rintro ⟨url, hurl⟩
    rw [Option.map_eq_some'] at hurl
    obtain ⟨issue, hfind, _⟩ := hurl
    refine ⟨issue, List.mem_reverse.mp (List.mem_of_find?_eq_some hfind), ?_⟩
    simpa using List.find?_some hfind
  · rintro ⟨issue, hmem, hnum⟩
    have hsome : (issues.reverse.find? (fun issue => issue.Number = n)).isSome = true := by
      rw [List.find?_isSome]
      exact ⟨issue, List.mem_reverse.mpr hmem, by simpa using hnum⟩
    obtain ⟨found, hfound⟩ := Option.isSome_iff_exists.mp hsome
    exact ⟨found.HTMLURL, by rw [hfound]; rfl⟩

theorem convertQuote_issueURL (issueURLs : URLMap) (q : RawQuote) :
    (convertQuote issueURLs q).IssueURL = (issueURLs q.IssueNumber).getD [] := by
  unfold convertQuote
  cases h : issueURLs q.IssueNumber <;> rfl

/-- C14: the lookup that `synthesizeAnalyses` builds from the issue list maps a number n to
the URL of the last issue of the list with the number n, and has a value exactly for the
numbers that occur in the list; it is the lookup handed to `parseAnalysis` in both parsing
branches, so every issue number of a decoded theme or notable quote resolves to the URL of the
last issue with that number (for two repositories sharing a number, the later one). -/
theorem buildIssueURLs_last (issues : List Issue) :
    (∀ n, buildIssueURLs issues n = lastURL issues n)
    ∧ (∀ n, (∃ url, buildIssueURLs issues n = some url) ↔ ∃ issue ∈ issues, issue.Number = n)
    ∧ (∀ pre x post, issues = pre ++ x :: post → (∀ y ∈ post, y.Number ≠ x.Number) →
        buildIssueURLs issues x.Number = some x.HTMLURL)
    ∧ (∀ (unmarshal : GoString → Option RawAnalysis) (complete : Completion)
        (calls : List CompletionRequest) (batchAnalyses : List GoString) (opts : Options),
        (synthesizeAnalyses unmarshal complete calls batchAnalyses issues opts).1
          = match batchAnalyses with
            | [] => .ok { RawIssueCount := (issues.length : Int) }
            | [r] => parseAnalysis unmarshal r (buildIssueURLs issues) (issues.length : Int)
            | r1 :: r2 :: more =>
              match complete calls.length (synthesisRequest (r1 :: r2 :: more) opts) with
              | .ok response =>
                parseAnalysis unmarshal response (buildIssueURLs issues) (issues.length : Int)
              | .error err => .error (lit "synthesis failed: " ++ err))
    ∧ (∀ (unmarshal : GoString → Option RawAnalysis) (response : GoString) (issueCount : Int)
        (rawAnalysis : RawAnalysis), unmarshal (extractJSON response) = some rawAnalysis →
        ∃ analysis,
          parseAnalysis unmarshal response (buildIssueURLs issues) issueCount = .ok analysis
          ∧ analysis.Themes.map (fun theme => theme.IssueURLs)
              = rawAnalysis.Themes.map (fun t => t.IssueNumbers.filterMap (lastURL issues))
          ∧ analysis.Quotes.map (fun quote => quote.IssueURL)
              = rawAnalysis.NotableQuotes.map
                  (fun q => (lastURL issues q.IssueNumber).getD [])) := by
  have hfun : buildIssueURLs issues = lastURL issues :=
    funext (buildIssueURLs_eq_lastURL issues)
  refine ⟨buildIssueURLs_eq_lastURL issues, ?_, ?_, ?_, ?_⟩
  · intro n
    rw [buildIssueURLs_eq_lastURL]
    exact lastURL_isSome_iff issues n
  · rintro pre x post rfl hpost
    rw [buildIssueURLs_eq_lastURL]
    exact lastURL_of_last pre post x hpost
  · intro unmarshal complete calls batchAnalyses opts
    match batchAnalyses with
    | [] => simp [synthesizeAnalyses]
    | [r] => simp [synthesizeAnalyses]
    | r1 :: r2 :: more =>
      rw [synthesizeAnalyses_many unmarshal complete calls (r1 :: r2 :: more) issues opts
        (by simp)]
  · intro unmarshal response issueCount rawAnalysis h
    refine ⟨_, parseAnalysis_decoded unmarshal response _ issueCount rawAnalysis h, ?_, ?_⟩
    · simp only [List.map_map, Function.comp_def, convertTheme_issueURLs, hfun]
    · simp only [List.map_map, Function.comp_def, convertQuote_issueURL, hfun]

/-- Witness for `buildIssueURLs_last`: issue 5 of repository `a/x` followed by issue 5 of
repository `b/y`; the lookup holds the URL of the second, and a theme and a quote that refer to
issue 5 both get that URL. -/
theorem buildIssueURLs_last_witness :
    buildIssueURLs [issueFiveOfFirstRepo, issueFiveOfSecondRepo] 5
      = some (lit "https://github.com/b/y/issues/5")
    ∧ (synthesizeAnalyses jsonUnmarshal emptyObjectCompletion []
        [lit "\x7b\"themes\":[\x7b\"name\":\"GPU\",\"issue_numbers\":[5]\x7d],\"notable_quotes\":[\x7b\"text\":\"slow\",\"issue_number\":5\x7d]\x7d"]
        [issueFiveOfFirstRepo, issueFiveOfSecondRepo] sampleOptions).1
      = .ok { Themes := [{ Name := lit "GPU", IssueCount := 1,
                           IssueURLs := [lit "https://github.com/b/y/issues/5"] }],
              KeyInsights := [],
              Quotes := [{ Text := lit "slow", Source := lit "Issue #5",
                           IssueURL := lit "https://github.com/b/y/issues/5" }],
              ActionItems := [], RawIssueCount := 2 } :=
  ⟨((buildIssueURLs_last [issueFiveOfFirstRepo, issueFiveOfSecondRepo]).2.2.1
      [issueFiveOfFirstRepo] issueFiveOfSecondRepo [] rfl (by simp)),
   by set_option maxRecDepth 100000 in rfl⟩

/-! ## Which failed calls become errors (`FetchIssues`) -/

theorem searchIssues_calls (c : Client) (fuel : Nat) (owner repo : GoString)
    (opts : FetchOptions) (run : FetchRun)
    (hrun : searchIssues c fuel owner repo opts = some run) :
    ∃ segments : List (List GoString), run.calls = segments.flatten
      ∧ List.Forall₂
          (fun keyword seg =>
            ∃ p, seg = searchPagesOf c (searchQuery owner repo opts keyword) 1 p)
          (searchKeywordsOf opts) segments
      ∧ (0 < opts.MaxItems → ∀ first, segments[0]? = some first → first ≠ [])
      ∧ ∀ i seg j endpoint err, segments[i]? = some seg → seg[j]? = some endpoint →
          c.fetchSearchPage ((segments.take i).flatten.length + j) endpoint = .error err →
          j + 1 = seg.length ∧ ∀ next, segments[i + 1]? = some next → next ≠ [] := by
  unfold searchIssues at hrun
  split at hrun
  · exact absurd hrun (by simp)
  · rename_i st hst
    obtain ⟨segments, h1, h2, h3, h4⟩ :=
      searchKeywords_calls c owner repo opts fuel opts.Keywords {} st hst
    cases hrun
    refine ⟨segments, by simpa using h1, h2, ?_, ?_⟩
    · intro hM
      exact h3 (by simpa using hM)
    · intro i seg j endpoint err hseg hj hfail
      exact h4 i seg j endpoint err hseg hj (by simpa using hfail)

/-- The listing run in which the first page call answers with a full page of 100 issues and
the second page call fails: `FetchIssues` returns the error of the second call, and none of the
100 issues fetched. -/
theorem FetchIssues_listing_later_page_fails :
    sampleClient.fetchPage 0
        (lit "https://api.github.com/repos/o/r/issues?page=1&per_page=100&state=all")
      = .ok (sampleIssues 100)
    ∧ FetchIssues sampleClient 150 (lit "o") (lit "r") sampleListOptions
      = some { result := .error (lit "boom"),
               calls := [lit "https://api.github.com/repos/o/r/issues?page=1&per_page=100&state=all",
                         lit "https://api.github.com/repos/o/r/issues?page=2&per_page=100&state=all"],
               fetched := (sampleIssues 100).map (setRepo (lit "o") (lit "r")) } := by
  refine ⟨rfl, ?_⟩
  set_option maxRecDepth 100000 in decide

/-- C10, as stated, fails: on the search path the very first query call fails, and
`FetchIssues` returns an empty list and no error. -/
theorem FetchIssues_error_not_tied_to_first_call :
    failingClient.fetchSearchPage 0
        (lit "https://api.github.com/search/issues?q=gpu+repo%3Ao%2Fr+is%3Aissue&page=1&per_page=100")
      = .error (lit "rate limited or forbidden")
    ∧ FetchIssues failingClient 10 (lit "o") (lit "r") sampleKeywordOptions
      = some { result := .ok [],
               calls := [lit "https://api.github.com/search/issues?q=gpu+repo%3Ao%2Fr+is%3Aissue&page=1&per_page=100"],
               fetched := [] } := by
  refine ⟨rfl, ?_⟩
  decide

/-- C10 (amended).  Listing path (no keyword): when the very first page call fails,
`FetchIssues` returns that error, having made that one call; given fuel for M pages it returns,
and when every page call it made succeeded it returns no error.  Search path (some keyword):
`FetchIssues` never returns an error; the calls made are, per non-blank trimmed keyword in
order, consecutive pages from page 1 on; a failed call is the last call of its keyword and
brings no item, and the next keyword, if there is one, still gets its first page requested; the
items of all calls are kept, and with a max count M >= 0 the result is their de-duplication cut
to M.  The search returns (one unit of fuel is enough) when no call answers with a full page of
100 items. -/
theorem FetchIssues_errors (c : Client) (fuel : Nat) (owner repo : GoString)
    (opts : FetchOptions) :
    (opts.Keywords = [] →
      (∀ err, 0 < opts.MaxItems → 0 < fuel →
        c.fetchPage 0
            (pageEndpoint c owner repo opts 1 (if opts.MaxItems < 100 then opts.MaxItems else 100))
          = .error err →
        FetchIssues c fuel owner repo opts
          = some { result := .error err,
                   calls := [pageEndpoint c owner repo opts 1
                              (if opts.MaxItems < 100 then opts.MaxItems else 100)],
                   fetched := [] })
      ∧ (opts.MaxItems.toNat ≤ fuel →
          ∃ run, FetchIssues c fuel owner repo opts = some run
            ∧ (AllPagesOk c run.calls → ∀ err, run.result ≠ .error err)))
    ∧ (opts.Keywords ≠ [] → ∀ run, FetchIssues c fuel owner repo opts = some run →
        (∀ err, run.result ≠ .error err)
        ∧ run.fetched = searchItems c owner repo 0 run.calls
        ∧ (0 ≤ opts.MaxItems →
            run.result = .ok ((dedupAppend [] run.fetched).take opts.MaxItems.toNat))
        ∧ ∃ segments : List (List GoString), run.calls = segments.flatten
            ∧ List.Forall₂
                (fun keyword seg =>
                  ∃ p, seg = searchPagesOf c (searchQuery owner repo opts keyword) 1 p)
                (searchKeywordsOf opts) segments
            ∧ (0 < opts.MaxItems → ∀ first, segments[0]? = some first → first ≠ [])
            ∧ ∀ i seg j endpoint err, segments[i]? = some seg → seg[j]? = some endpoint →
                c.fetchSearchPage ((segments.take i).flatten.length + j) endpoint = .error err →
                j + 1 = seg.length ∧ ∀ next, segments[i + 1]? = some next → next ≠ [])
    ∧ (opts.Keywords ≠ [] → 0 < fuel →
        (∀ k endpoint items, c.fetchSearchPage k endpoint = .ok items → items.length < 100) →
        ∃ run, FetchIssues c fuel owner repo opts = some run) := by
  refine ⟨?_, ?_, ?_⟩
  · intro hkw
    constructor
    · intro err hM hfuel hfail
      obtain ⟨n, rfl⟩ : ∃ n, fuel = n + 1 := ⟨fuel - 1, by omega⟩
      unfold FetchIssues
      simp only [hkw, List.length_nil, gt_iff_lt, lt_self_iff_false, if_false]
      unfold pagedLoop
      have hcond : (((({} : FetchState).allIssues.length : Nat) : Int) < opts.MaxItems) := by
        simpa using hM
      simp only [hcond, if_true]
      have hfail' : c.fetchPage ({} : FetchState).calls.length
          (pageEndpoint c owner repo opts 1 (if opts.MaxItems < 100 then opts.MaxItems else 100))
          = .error err := hfail
      simp only [hfail']
      rfl
    · intro hfuel
      obtain ⟨ex, st', hloop, hdone, hfail⟩ :=
        pagedLoop_spec c owner repo opts (if opts.MaxItems < 100 then opts.MaxItems else 100)
          fuel 1 {} (by simpa using hfuel) (by intro k e h; simp at h)
      unfold FetchIssues
      simp only [hkw, List.length_nil, gt_iff_lt, lt_self_iff_false, if_false, hloop]
      cases ex with
      | done =>
        refine ⟨_, rfl, ?_⟩
        intro _ err h
        exact absurd h (cutToMax_ne_error _ _ _)
      | failed err =>
        obtain ⟨before, e, hcalls, _, hr⟩ := hfail err rfl
        refine ⟨_, rfl, ?_⟩
        intro hall
        obtain ⟨items, hi⟩ := hall before.length e (by simp [hcalls])
        rw [hi] at hr
        cases hr
  · intro hkw run hrun
    have hpos : opts.Keywords.length > 0 := List.length_pos.mpr hkw
    unfold FetchIssues at hrun
    rw [if_pos hpos] at hrun
    obtain ⟨hres, hfetched⟩ := searchIssues_run c fuel owner repo opts run hrun
    refine ⟨?_, hfetched, ?_, searchIssues_calls c fuel owner repo opts run hrun⟩
    · intro err h
      rw [hres] at h
      exact cutToMax_ne_error _ _ _ h
    · intro hM
      rw [hres, cutToMax_of_nonneg _ _ hM]
  · intro hkw hfuel hshort
    have hpos : opts.Keywords.length > 0 := List.length_pos.mpr hkw
    obtain ⟨n, rfl⟩ : ∃ n, fuel = n + 1 := ⟨fuel - 1, by omega⟩
    obtain ⟨st', hst⟩ := searchKeywords_short c owner repo opts n opts.Keywords hshort {}
    unfold FetchIssues searchIssues
    rw [if_pos hpos, hst]
    exact ⟨_, rfl⟩

/-- Witness for `FetchIssues_errors`.  Listing: the first page call fails and the error is
returned.  Search: the run of `sampleClient`, whose second call (the only page of the second
keyword) fails; no error is returned, and the third keyword is still searched. -/
theorem FetchIssues_errors_witness :
    FetchIssues failingClient 1 (lit "o") (lit "r") sampleListOptions
      = some { result := .error (lit "rate limited or forbidden"),
               calls := [pageEndpoint failingClient (lit "o") (lit "r") sampleListOptions 1
                          (if sampleListOptions.MaxItems < 100 then sampleListOptions.MaxItems
                           else 100)],
               fetched := [] }
    ∧ FetchIssues sampleClient 10 (lit "o") (lit "r") sampleSearchOptions = some sampleSearchRun
    ∧ sampleClient.fetchSearchPage 1
        (lit "https://api.github.com/search/issues?q=node+repo%3Ao%2Fr+is%3Aissue&page=1&per_page=100")
        = .error (lit "rate limited")
    ∧ (∀ err, sampleSearchRun.result ≠ .error err)
    ∧ ∃ segments : List (List GoString), sampleSearchRun.calls = segments.flatten
        ∧ List.Forall₂
            (fun keyword seg =>
              ∃ p, seg = searchPagesOf sampleClient
                (searchQuery (lit "o") (lit "r") sampleSearchOptions keyword) 1 p)
            (searchKeywordsOf sampleSearchOptions) segments
        ∧ (0 < sampleSearchOptions.MaxItems → ∀ first, segments[0]? = some first → first ≠ [])
        ∧ ∀ i seg j endpoint err, segments[i]? = some seg → seg[j]? = some endpoint →
            sampleClient.fetchSearchPage ((segments.take i).flatten.length + j) endpoint
              = .error err →
            j + 1 = seg.length ∧ ∀ next, segments[i + 1]? = some next → next ≠ [] :=
  have h := (FetchIssues_errors sampleClient 10 (lit "o") (lit "r") sampleSearchOptions).2.1
    (by decide) sampleSearchRun (by decide)
  ⟨((FetchIssues_errors failingClient 1 (lit "o") (lit "r") sampleListOptions).1 rfl).1
      (lit "rate limited or forbidden") (by decide) (by decide) rfl,
   by decide, rfl, h.1, h.2.2.2⟩

end IssueParser
